import Mathlib

/-!
Verification development for the tahsilat_takibim receivables-tracking
backend (FastAPI + SQLAlchemy).  The Python sources under `app/` are
shallowly embedded here:

* Python `float` values are modelled as `ℚ` (the arithmetic in the code is
  plain +, *, /, comparisons; no NaN/inf-dependent behaviour is claimed).
* `datetime.date` values are modelled as `ℤ` day numbers (one unit = one
  day); `date - date` is integer subtraction of day numbers, and
  `date + timedelta(days = n)` is `+ n`.  `daysFromCivil` converts a civil
  calendar date to its day number so worked examples can use real dates.
* Nullable columns / possibly-missing cells are `Option` values; Python
  truthiness of strings ("" and None falsy) is `pyTruthy` and `x or y` on
  such values is `pyOr`.
* SQLAlchemy tables are Lean lists; `query(...).filter(key == k).first()`
  is `List.find?` on the list, row mutation is replacement of the first
  matching entry, `db.add` appends.
-/

namespace Tahsilat

/-- Python truthiness of an optional string: `None` and `""` are falsy. -/
def pyTruthy : Option String → Bool
  | none => false
  | some s => s ≠ ""

/-- Python `a or b` over optional strings (`a` when truthy, else `b`). -/
def pyOr (a b : Option String) : Option String :=
  if pyTruthy a then a else b

/-- Python `str(x or "")` for an optional string cell. -/
def pyStr (v : Option String) : String :=
  v.getD ""

/-- Python `str.strip()`: drop leading and trailing whitespace (modelled
character-wise so that concrete runs compute inside proofs). -/
def pyStrip (s : String) : String :=
  String.mk (((s.toList.dropWhile Char.isWhitespace).reverse.dropWhile Char.isWhitespace).reverse)

/-- Python `str.lower()` (character-wise; the values compared in the code
are plain ASCII). -/
def pyLower (s : String) : String :=
  String.mk (s.toList.map Char.toLower)

/-- Python `text.replace(".", "")`: remove every dot. -/
def pyRemoveDots (s : String) : String :=
  String.mk (s.toList.filter (fun c => !(c == '.')))

/-- Python `text.replace(",", ".")`: turn every comma into a dot. -/
def pyCommaToDot (s : String) : String :=
  String.mk (s.toList.map (fun c => if c == ',' then '.' else c))

/-- The `str(row.get(col) or "").strip() or None` pattern used throughout
`app/importers.py`: trim, and turn empty text into an absent value. -/
def strFieldOrNone (v : Option String) : Option String :=
  let text := pyStrip (pyStr v)
  if text = "" then none else some text

/-- Embeds `_normalize_customer_no` from `app/importers.py`: stringified
customer number, `None` when blank or the text "nan". -/
def normalize_customer_no (value : Option String) : Option String :=
  match value with
  | none => none
  | some v =>
    let text := pyStrip v
    if text = "" then none
    else if pyLower text = "nan" then none
    else some text

/-- Day number of a civil date (proleptic Gregorian), Howard Hinnant's
`days_from_civil` algorithm; day 0 is 1970-01-01.  Used only to state
worked examples on real calendar dates. -/
def daysFromCivil (y m d : Int) : Int :=
  let y1 : Int := if m ≤ 2 then y - 1 else y
  let era : Int := (if 0 ≤ y1 then y1 else y1 - 399) / 400
  let yoe : Int := y1 - era * 400
  let doy : Int := (153 * (m + (if 2 < m then -3 else 9)) + 2) / 5 + d - 1
  let doe : Int := yoe * 365 + yoe / 4 - yoe / 100 + doy
  era * 146097 + doe - 719468

/-- Embeds `clamp` from `app/risk_score.py` (with its default bounds
`min_val = 0`, `max_val = 100`, the only ones ever used). -/
def clamp (value : ℚ) : ℚ :=
  max 0 (min value 100)

/-- Python `round(x, 2)`: rounding to two decimals, modelled as
nearest-integer rounding of `100 * x` (Python's tie-breaking on binary
floats is immaterial to the claims, which bound and relate the result). -/
def round2 (x : ℚ) : ℚ :=
  ((round (x * 100) : ℤ) : ℚ) / 100

/-- Embeds `calculate_risk_score` from `app/risk_score.py` with its default
`score4_scale = 1000` (no caller overrides it). -/
def calculate_risk_score (overdue_ratio over90_ratio weighted_days loss_ratio : ℚ) : ℚ :=
  let score1 := clamp (overdue_ratio * 100)
  let score2 := clamp (over90_ratio * 100)
  let score3 := clamp (weighted_days / 120 * 100)
  let score4 := clamp (loss_ratio * 1000)
  let risk := 35 / 100 * score1 + 30 / 100 * score2 + 20 / 100 * score3 + 15 / 100 * score4
  round2 risk

/-- Row of the `payments` table (`Payment` in `app/models.py`); the
surrogate `id` column is omitted (never used by the embedded logic). -/
structure Payment where
  customer_no : Option String
  customer_name : Option String
  invoice_date : Option Int
  payment_date : Option Int
  ar_invoice_no : Option String
  value_date : Option Int
  delay_days : Int
  vade : Option Int
  applied_amount : Option ℚ
  payment_amount_try : Option ℚ
deriving Repr, DecidableEq

/-- Row of the `invoices` table (`Invoice` in `app/models.py`). -/
structure Invoice where
  invoice_no : String
  customer_no : Option String
  customer_name : Option String
  invoice_date : Option Int
  due_date : Option Int
  vade : Option Int
  currency : Option String
  total_amount : Option ℚ
  open_balance : Option ℚ
deriving Repr, DecidableEq

/-- Row of the `customers` table (`Customer` in `app/models.py`). -/
structure Customer where
  customer_no : String
  name : Option String
  region_id : Option Int
deriving Repr, DecidableEq

/-- Row of the `regions` table (`Region` in `app/models.py`). -/
structure Region where
  id : Int
  name : Option String
deriving Repr, DecidableEq

/-- The relational store: the five tables the embedded logic touches
(`actions` is pure record keeping and not claimed about).  `settings` is
the key → numeric value table. -/
structure DB where
  customers : List Customer
  invoices : List Invoice
  payments : List Payment
  regions : List Region
  settings : List (String × ℚ)
deriving Repr, DecidableEq

/-- Embeds `get_cost_of_cash_annual` from `app/settings.py`. -/
def get_cost_of_cash_annual (db : DB) (default : ℚ) : ℚ :=
  match db.settings.find? (fun kv => kv.1 == "cost_of_cash_annual") with
  | some kv => kv.2
  | none => default

/-- Embeds `get_late_fee_rate_annual` from `app/settings.py`. -/
def get_late_fee_rate_annual (db : DB) (default : ℚ) : ℚ :=
  match db.settings.find? (fun kv => kv.1 == "late_fee_rate_annual") with
  | some kv => kv.2
  | none => default

/-- Embeds `calculate_late_loss_payment` from `app/metrics.py`: the
financial loss of one payment row at an annual cost-of-cash rate. -/
def calculate_late_loss_payment (payment : Payment) (cost_of_cash : ℚ) : ℚ :=
  match payment.payment_date, payment.invoice_date, payment.vade with
  | some payment_date, some invoice_date, some vade =>
    match payment.applied_amount with
    | none => 0
    | some amount =>
      if amount = 0 then 0
      else
        let expected_date := invoice_date + vade
        let delay_days := payment_date - expected_date
        if delay_days ≤ 0 then 0
        else (delay_days : ℚ) * amount * (cost_of_cash / 100 / 365)
  | _, _, _ => 0

theorem clamp_nonneg (x : ℚ) : 0 ≤ clamp x :=
  le_max_left _ _

theorem clamp_le_100 (x : ℚ) : clamp x ≤ 100 :=
  max_le (by norm_num) (min_le_right _ _)

theorem round2_nonneg {x : ℚ} (h : 0 ≤ x) : 0 ≤ round2 x := by
  unfold round2
  have h1 : (0 : ℤ) ≤ round (x * 100) := by
    rw [round_eq]
    exact Int.le_floor.mpr (by push_cast; linarith)
  have h2 : (0 : ℚ) ≤ ((round (x * 100) : ℤ) : ℚ) := by exact_mod_cast h1
  linarith

theorem round2_le_100 {x : ℚ} (h : x ≤ 100) : round2 x ≤ 100 := by
  unfold round2
  have h1 : round (x * 100) < (10001 : ℤ) := by
    rw [round_eq]
    exact Int.floor_lt.mpr (by push_cast; linarith)
  have h2 : ((round (x * 100) : ℤ) : ℚ) ≤ 10000 := by exact_mod_cast Int.lt_add_one_iff.mp h1
  linarith

/-- A spreadsheet cell as seen by `_to_float`: missing, already numeric
(Python int/float), or text. -/
inductive PyVal where
  | none
  | num (q : ℚ)
  | str (s : String)
deriving Repr, DecidableEq

/-- Numeric value of a list of decimal digit characters. -/
def digitsVal (l : List Char) : Nat :=
  l.foldl (fun acc c => acc * 10 + (c.toNat - 48)) 0

/-- Parses an unsigned decimal mantissa (`digits`, `digits.digits`,
`digits.`, `.digits`). -/
def parseMantissa (l : List Char) : Option ℚ :=
  let (ip, rest) := l.span (fun c => c.isDigit)
  match rest with
  | [] => if ip.isEmpty then Option.none else some (digitsVal ip)
  | '.' :: fp =>
    if fp.all (fun c => c.isDigit) && !(ip.isEmpty && fp.isEmpty) then
      some ((digitsVal ip : ℚ) + (digitsVal fp : ℚ) / (10 : ℚ) ^ fp.length)
    else Option.none
  | _ => Option.none

/-- Strips an optional leading sign, reporting whether it was negative. -/
def splitSign : List Char → Bool × List Char
  | '-' :: rest => (true, rest)
  | '+' :: rest => (false, rest)
  | l => (false, l)

/-- Model of Python's builtin `float(text)` (not part of this repository):
surrounding whitespace tolerated, an optional sign, a decimal mantissa and
an optional exponent part; any other text raises ValueError in Python,
modelled as `none` here (the special texts inf/nan also map to `none`:
no claim depends on them). -/
def pyFloat (s : String) : Option ℚ :=
  let t := pyStrip s
  let (neg, l1) := splitSign t.toList
  let (mant, rest) := l1.span (fun c => !(c == 'e' || c == 'E'))
  let base : Option ℚ :=
    match rest with
    | [] => parseMantissa mant
    | _ :: ed0 =>
      let (eneg, ed) := splitSign ed0
      if !ed.isEmpty && ed.all (fun c => c.isDigit) then
        (parseMantissa mant).map (fun m =>
          if eneg then m / (10 : ℚ) ^ digitsVal ed else m * (10 : ℚ) ^ digitsVal ed)
      else Option.none
  base.map (fun q => if neg then -q else q)

/-- Embeds `_to_float` from `app/importers.py`: `None` for an absent cell,
the value itself for a numeric cell, and for text the decimal-comma
heuristic (exactly one comma: drop dots, comma becomes the decimal point)
before float parsing; every failure yields `None`, never an exception. -/
def to_float : PyVal → Option ℚ
  | .none => Option.none
  | .num q => some q
  | .str v =>
    let text := pyStrip v
    if text = "" then Option.none
    else if text.toList.countP (fun c => c == ',') = 1 then
      pyFloat (pyCommaToDot (pyRemoveDots text))
    else pyFloat text

/-- C1: for all real inputs (any sign, any magnitude) `calculate_risk_score`
stays inside [0, 100] and equals the two-decimal rounding of the weighted
blend 0.35/0.30/0.20/0.15 of the four components, each clamped into
[0, 100] (`overdue_ratio*100`, `over90_ratio*100`, `weighted_days/120*100`,
`loss_ratio*1000`). -/
theorem C1_risk_score_bounded_and_formula
    (overdue_ratio over90_ratio weighted_days loss_ratio : ℚ) :
    0 ≤ calculate_risk_score overdue_ratio over90_ratio weighted_days loss_ratio ∧
    calculate_risk_score overdue_ratio over90_ratio weighted_days loss_ratio ≤ 100 ∧
    calculate_risk_score overdue_ratio over90_ratio weighted_days loss_ratio =
      round2 (35 / 100 * clamp (overdue_ratio * 100) + 30 / 100 * clamp (over90_ratio * 100)
        + 20 / 100 * clamp (weighted_days / 120 * 100) + 15 / 100 * clamp (loss_ratio * 1000)) := by
  have b1 := clamp_nonneg (overdue_ratio * 100)
  have b2 := clamp_nonneg (over90_ratio * 100)
  have b3 := clamp_nonneg (weighted_days / 120 * 100)
  have b4 := clamp_nonneg (loss_ratio * 1000)
  have t1 := clamp_le_100 (overdue_ratio * 100)
  have t2 := clamp_le_100 (over90_ratio * 100)
  have t3 := clamp_le_100 (weighted_days / 120 * 100)
  have t4 := clamp_le_100 (loss_ratio * 1000)
  exact ⟨round2_nonneg (by linarith), round2_le_100 (by linarith), rfl⟩

/-- C2: the single-payment financial loss is zero when the payment date,
linked invoice date or term-length is absent, when the applied amount is
absent or zero, or when the delay `payment_date - (invoice_date + vade)` is
nonpositive; otherwise it is `delay * amount * (rate/100/365)`; and the
worked example (5000 applied, invoiced 2024-01-01, vade 30, paid
2024-03-01, rate 45) gives `30 * 5000 * (0.45/365)`. -/
theorem C2_late_loss_payment (p : Payment) (rate : ℚ) :
    (p.payment_date = none ∨ p.invoice_date = none ∨ p.vade = none ∨
        p.applied_amount = none ∨ p.applied_amount = some 0 →
      calculate_late_loss_payment p rate = 0) ∧
    (∀ pd invd v, p.payment_date = some pd → p.invoice_date = some invd → p.vade = some v →
      pd - (invd + v) ≤ 0 → calculate_late_loss_payment p rate = 0) ∧
    (∀ pd invd v a, p.payment_date = some pd → p.invoice_date = some invd → p.vade = some v →
      p.applied_amount = some a → a ≠ 0 → 0 < pd - (invd + v) →
      calculate_late_loss_payment p rate =
        ((pd - (invd + v) : ℤ) : ℚ) * a * (rate / 100 / 365)) ∧
    calculate_late_loss_payment
      { customer_no := none, customer_name := none,
        invoice_date := some (daysFromCivil 2024 1 1),
        payment_date := some (daysFromCivil 2024 3 1),
        ar_invoice_no := none, value_date := none, delay_days := 0,
        vade := some 30, applied_amount := some 5000, payment_amount_try := none } 45
      = 30 * 5000 * (45 / 100 / 365) := by
  refine ⟨?_, ?_, ?_, by rfl⟩
  · rintro (h | h | h | h | h) <;>
      rcases hpd : p.payment_date with _ | pd <;>
      rcases hid : p.invoice_date with _ | invd <;>
      rcases hv : p.vade with _ | v <;>
      simp_all [calculate_late_loss_payment]
  · intro pd invd v h1 h2 h3 hle
    rcases ha : p.applied_amount with _ | a
    · simp [calculate_late_loss_payment, h1, h2, h3, ha]
    · by_cases h0 : a = 0
      · simp [calculate_late_loss_payment, h1, h2, h3, ha, h0]
      · simp [calculate_late_loss_payment, h1, h2, h3, ha, h0, hle]
  · intro pd invd v a h1 h2 h3 ha h0 hlt
    simp only [calculate_late_loss_payment, h1, h2, h3, ha]
    rw [if_neg h0, if_neg (show ¬ (pd - (invd + v) ≤ 0) by omega)]

/-- Witness for C2 at a concrete payment lacking a payment date. -/
theorem C2_late_loss_payment_witness :
    calculate_late_loss_payment
      { customer_no := none, customer_name := none, invoice_date := some 0,
        payment_date := none, ar_invoice_no := none, value_date := none,
        delay_days := 0, vade := some 30, applied_amount := some 5000,
        payment_amount_try := none } 45 = 0 :=
  (C2_late_loss_payment _ 45).1 (Or.inl rfl)

/-- Mutation of the first customer row matching a customer number: the
effect of assigning to the object returned by
`db.query(Customer).filter(Customer.customer_no == no).first()`. -/
def updateFirstCustomer (l : List Customer) (no : String) (f : Customer → Customer) : List Customer :=
  match l with
  | [] => []
  | c :: rest =>
    if c.customer_no == no then f c :: rest else c :: updateFirstCustomer rest no f

/-- The customer upsert shared by `import_invoices_df` and
`import_payments_df` in `app/importers.py`: consult the per-batch cache
first (a later sighting refreshes the display name when the row carries
one), otherwise look the customer up in the store and create it on first
sighting with name `customer_name or customer_no`.  The cache is modelled
as the list of customer numbers already handled in this batch; the store
row itself plays the role of the cached mutable object.  Returns the
updated store and cache. -/
def customerPhase (customers : List Customer) (cache : List String)
    (customer_no : String) (customer_name : Option String) :
    List Customer × List String :=
  if cache.contains customer_no then
    (updateFirstCustomer customers customer_no (fun c =>
        if pyTruthy customer_name && !(c.name == customer_name) then
          { c with name := customer_name }
        else c),
      cache)
  else
    match customers.find? (fun c => c.customer_no == customer_no) with
    | some _ => (customers, customer_no :: cache)
    | none =>
      (customers ++ [{ customer_no := customer_no,
                       name := pyOr customer_name (some customer_no),
                       region_id := none }],
        customer_no :: cache)

/-- Name of the first stored customer with the given number (the `.name`
of the object the import loop holds). -/
def customerNameIn (customers : List Customer) (no : String) : Option String :=
  match customers.find? (fun c => c.customer_no == no) with
  | some c => c.name
  | none => none

/-- One row of the payments file, after pandas has stringified the headers,
coerced the three date columns (`errors="coerce"`, so a malformed date is
`none`) and with the `Uygulanan Tutar` column already resolved (the
alternative header names accepted by the code do not change row values). -/
structure PaymentRow where
  musteri_no : Option String
  musteri_adi : Option String
  ar_fatura_no : Option String
  odeme_valor_tarihi : Option Int
  odeme_tarihi : Option Int
  fatura_tarihi : Option Int
  uygulanan_tutar : PyVal
  odeme_tutar_try : PyVal
deriving Repr, DecidableEq

/-- SQL ordering key for `ORDER BY invoice_date DESC`: is the left date
strictly earlier (with NULL sorting after every real date, as SQLite does
for DESC)? -/
def dateDescLt (a b : Option Int) : Bool :=
  match a, b with
  | Option.none, some _ => true
  | some x, some y => x < y
  | _, _ => false

/-- Embeds the per-customer-name vade lookup of `import_payments_df`:
`db.query(Invoice).filter(Invoice.customer_name == name)
.order_by(Invoice.invoice_date.desc()).first()` — the first stored invoice
with that customer name carrying the latest invoice date (earliest-stored
wins a tie; the per-batch cache is transparent because the invoice table
is not mutated during a payment import). -/
def latestInvoiceForName (invoices : List Invoice) (name : String) : Option Invoice :=
  (invoices.filter (fun i => i.customer_name == some name)).foldl
    (fun best i =>
      match best with
      | Option.none => some i
      | some b => if dateDescLt b.invoice_date i.invoice_date then some i else some b)
    Option.none

/-- The value-date fallback of `import_payments_df`: the payment value
date, or the payment date when the value date is missing (`pd.isna`). -/
def paymentValueDate (row : PaymentRow) : Option Int :=
  match row.odeme_valor_tarihi with
  | Option.none => row.odeme_tarihi
  | some v => some v

/-- The delay-day computation of `import_payments_df` (lines 229-239):
look the referenced invoice up by `AR Fatura No` and keep the positive
part of `value_date - due_date`, defaulting to 0 whenever anything is
missing. -/
def paymentDelayDays (invoices : List Invoice) (value_date : Option Int)
    (ar_invoice_no : Option String) : Int :=
  match value_date, ar_invoice_no with
  | some vd, some arno =>
    match invoices.find? (fun i => i.invoice_no == arno) with
    | some inv =>
      match inv.due_date with
      | some dd => if 0 < vd - dd then vd - dd else 0
      | Option.none => 0
    | Option.none => 0
  | _, _ => 0

/-- Accumulator of the `import_payments_df` row loop. -/
structure PayAcc where
  customers : List Customer
  cache : List String
  payments : List Payment
  imported : Nat
deriving Repr, DecidableEq

/-- One iteration of the `import_payments_df` row loop (`app/importers.py`
lines 200-272).  `invoices` is the invoice store, which the loop only
reads, so the two read-caches of the source are transparent and modelled
as direct lookups. -/
def paymentsStep (invoices : List Invoice) (acc : PayAcc) (row : PaymentRow) : PayAcc :=
  match normalize_customer_no row.musteri_no with
  | Option.none => acc
  | some customer_no =>
    let customer_name := strFieldOrNone row.musteri_adi
    let (customers1, cache1) :=
      customerPhase acc.customers acc.cache customer_no customer_name
    let ar_invoice_no := strFieldOrNone row.ar_fatura_no
    let value_date := paymentValueDate row
    let delay_days : Int := paymentDelayDays invoices value_date ar_invoice_no
    let vade_days_for_payment : Option Int :=
      match customer_name with
      | some nm => (latestInvoiceForName invoices nm).bind (fun i => i.vade)
      | Option.none => Option.none
    let applied_amount := to_float row.uygulanan_tutar
    let payment_amount_try := to_float row.odeme_tutar_try
    let payment : Payment :=
      { customer_no := some customer_no
        customer_name := pyOr customer_name (customerNameIn customers1 customer_no)
        invoice_date := row.fatura_tarihi
        payment_date := row.odeme_tarihi
        ar_invoice_no := ar_invoice_no
        value_date := value_date
        delay_days := delay_days
        vade := vade_days_for_payment
        applied_amount := applied_amount
        payment_amount_try := payment_amount_try }
    { customers := customers1, cache := cache1,
      payments := acc.payments ++ [payment], imported := acc.imported + 1 }

/-- Embeds `import_payments_df` from `app/importers.py`: clears the
payment table (`db.query(Payment).delete()`), then runs the row loop,
returning the updated store and the inserted-row count. -/
def import_payments_df (db : DB) (rows : List PaymentRow) : DB × Nat :=
  let acc := rows.foldl (paymentsStep db.invoices)
    { customers := db.customers, cache := [], payments := [], imported := 0 }
  ({ db with customers := acc.customers, payments := acc.payments }, acc.imported)

theorem paymentsFold_count (invs : List Invoice) (rows : List PaymentRow) (acc : PayAcc) :
    ((rows.foldl (paymentsStep invs) acc).payments.length
        = acc.payments.length + rows.countP (fun r => (normalize_customer_no r.musteri_no).isSome))
    ∧ ((rows.foldl (paymentsStep invs) acc).imported
        = acc.imported + rows.countP (fun r => (normalize_customer_no r.musteri_no).isSome)) := by
  induction rows generalizing acc with
  | nil => simp
  | cons r rest ih =>
    rcases h : normalize_customer_no r.musteri_no with _ | c
    · have hstep : paymentsStep invs acc r = acc := by simp [paymentsStep, h]
      simp [List.foldl_cons, hstep, List.countP_cons, h, ih]
    · have h1 := ih (paymentsStep invs acc r)
      have hlen : (paymentsStep invs acc r).payments.length = acc.payments.length + 1 := by
        simp [paymentsStep, h]
      have himp : (paymentsStep invs acc r).imported = acc.imported + 1 := by
        simp [paymentsStep, h]
      simp only [List.foldl_cons, List.countP_cons, h, h1.1, h1.2, hlen, himp]
      constructor <;> simp <;> omega

/-- C3: a payment import first clears the payment store, so the resulting
store does not depend on the previously stored payments; it then holds one
row per batch row with a usable customer number (rows without one are
skipped), and the returned count equals the number of stored rows. -/
theorem C3_payments_import_replace_all (db : DB) (prior : List Payment)
    (rows : List PaymentRow) :
    (import_payments_df { db with payments := prior } rows).1.payments
        = (import_payments_df db rows).1.payments ∧
    (import_payments_df db rows).2 = (import_payments_df db rows).1.payments.length ∧
    (import_payments_df db rows).1.payments.length
        = rows.countP (fun r => (normalize_customer_no r.musteri_no).isSome) := by
  have h := paymentsFold_count db.invoices rows
    { customers := db.customers, cache := [], payments := [], imported := 0 }
  exact ⟨rfl, by simp [import_payments_df, h.1, h.2], by simp [import_payments_df, h.1]⟩

/-- The reference formula of claim C5 for the stored `delay_days` of a
payment row: `max 0 (value_date - due_date)` of the invoice found by AR
invoice number when the value date, invoice and its due date all exist,
and 0 in every other case. -/
def delaySpec (invoices : List Invoice) (value_date : Option Int)
    (ar_invoice_no : Option String) : Int :=
  match value_date, ar_invoice_no with
  | some vd, some arno =>
    match (invoices.find? (fun i => i.invoice_no == arno)).bind (fun i => i.due_date) with
    | some dd => max 0 (vd - dd)
    | Option.none => 0
  | _, _ => 0

theorem paymentDelayDays_eq_delaySpec (invs : List Invoice) (vd : Option Int)
    (arno : Option String) : paymentDelayDays invs vd arno = delaySpec invs vd arno := by
  rcases vd with _ | v <;> rcases arno with _ | a <;> simp only [paymentDelayDays, delaySpec]
  rcases h : invs.find? (fun i => i.invoice_no == a) with _ | inv
  · simp [h]
  · rcases hd : inv.due_date with _ | dd <;> simp [h, hd, Option.bind] <;> omega

theorem paymentsFold_delay_inv (invs : List Invoice) (rows : List PaymentRow) (acc : PayAcc)
    (hacc : ∀ p ∈ acc.payments, p.delay_days = delaySpec invs p.value_date p.ar_invoice_no) :
    ∀ p ∈ (rows.foldl (paymentsStep invs) acc).payments,
      p.delay_days = delaySpec invs p.value_date p.ar_invoice_no := by
  induction rows generalizing acc with
  | nil => exact hacc
  | cons r rest ih =>
    refine ih (paymentsStep invs acc r) ?_
    rcases h : normalize_customer_no r.musteri_no with _ | c
    · simpa [paymentsStep, h] using hacc
    · intro p hp
      simp only [paymentsStep, h, List.mem_append, List.mem_singleton] at hp
      rcases hp with hp | hp
      · exact hacc p hp
      · subst hp
        exact paymentDelayDays_eq_delaySpec invs _ _

/-- C5: every payment stored by `import_payments_df` carries
`delay_days = max 0 (value_date - due_date)` of the invoice referenced by
its AR invoice number (looked up in the invoice store), and 0 whenever the
value date, the reference, the invoice or its due date is missing. -/
theorem C5_stored_delay_days (db : DB) (rows : List PaymentRow) :
    ∀ p ∈ (import_payments_df db rows).1.payments,
      p.delay_days = delaySpec db.invoices p.value_date p.ar_invoice_no := by
  intro p hp
  exact paymentsFold_delay_inv db.invoices rows
    { customers := db.customers, cache := [], payments := [], imported := 0 }
    (by intro q hq; simp at hq) p hp

/-- A one-invoice store used by concrete witnesses. -/
def invoiceW : Invoice :=
  { invoice_no := "I1", customer_no := some "C1", customer_name := some "Acme",
    invoice_date := some 0, due_date := some 10, vade := some 10,
    currency := none, total_amount := some 100, open_balance := some 100 }

/-- A store holding just `invoiceW`, used by concrete witnesses. -/
def dbW : DB :=
  { customers := [], invoices := [invoiceW], payments := [], regions := [], settings := [] }

/-- A single payment row referencing `invoiceW`, paid 15 days after the
due date, used by concrete witnesses. -/
def payRowW : PaymentRow :=
  { musteri_no := some "C1", musteri_adi := some "Acme",
    ar_fatura_no := some "I1", odeme_valor_tarihi := some 25,
    odeme_tarihi := some 24, fatura_tarihi := some 0,
    uygulanan_tutar := PyVal.num 100, odeme_tutar_try := PyVal.none }

/-- The payment that importing `payRowW` into `dbW` stores. -/
def storedPayW : Payment :=
  { customer_no := some "C1", customer_name := some "Acme", invoice_date := some 0,
    payment_date := some 24, ar_invoice_no := some "I1", value_date := some 25,
    delay_days := 15, vade := some 10, applied_amount := some 100,
    payment_amount_try := none }

/-- Witness for C5 at a one-row batch against a one-invoice store: the
single stored payment carries delay 15 = 25 - 10. -/
theorem C5_stored_delay_days_witness :
    storedPayW.delay_days = delaySpec dbW.invoices storedPayW.value_date storedPayW.ar_invoice_no :=
  C5_stored_delay_days dbW [payRowW] storedPayW (by decide)

/-- One row of the invoice aging file, after pandas has coerced the two
date columns (`errors="coerce"`: malformed dates become `none`).  String
cells carry the already-stringified value. -/
structure InvoiceRow where
  transaction_number : Option String
  customer_number : Option String
  customer_name : Option String
  date : Option Int
  due_date : Option Int
  currency_code : Option String
  total_amount : PyVal
  open_balance : PyVal
deriving Repr, DecidableEq

/-- Mutation of the first invoice row matching an invoice number (the
object `db.query(Invoice).filter(Invoice.invoice_no == no).first()`
returned): every data field is assigned, so the whole record is replaced
(the caller passes a record with the same `invoice_no`). -/
def updateFirstInvoice (l : List Invoice) (no : String) (v : Invoice) : List Invoice :=
  match l with
  | [] => []
  | i :: rest =>
    if i.invoice_no == no then v :: rest else i :: updateFirstInvoice rest no v

/-- The invoice record the import loop writes for one row (both in the
update branch — every field is assigned — and in the insert branch).
`custName` is the `.name` of the customer object the loop holds. -/
def invoiceFields (row : InvoiceRow) (invoice_no customer_no : String)
    (custName : Option String) : Invoice :=
  let customer_name := strFieldOrNone row.customer_name
  { invoice_no := invoice_no
    customer_no := some customer_no
    customer_name := pyOr customer_name custName
    invoice_date := row.date
    due_date := row.due_date
    vade := match row.date, row.due_date with
            | some d0, some d1 => some (d1 - d0)
            | _, _ => none
    currency := strFieldOrNone row.currency_code
    total_amount := to_float row.total_amount
    open_balance := to_float row.open_balance }

/-- Accumulator of the `import_invoices_df` row loop. -/
structure InvAcc where
  customers : List Customer
  invoices : List Invoice
  cache : List String
  imported : Nat
deriving Repr, DecidableEq

/-- The natural key of an aging row: its customer number (normalized) and
invoice number (trimmed); `none` when either is blank, in which case the
row is skipped. -/
def rowKey (row : InvoiceRow) : Option (String × String) :=
  match normalize_customer_no row.customer_number with
  | Option.none => Option.none
  | some c =>
    let ino := pyStrip (pyStr row.transaction_number)
    if ino = "" then Option.none else some (c, ino)

/-- One iteration of the `import_invoices_df` row loop (`app/importers.py`
lines 84-142): customer upsert through the per-batch cache, then
invoice upsert by invoice number, counting only inserts. -/
def invoicesStep (acc : InvAcc) (row : InvoiceRow) : InvAcc :=
  match rowKey row with
  | Option.none => acc
  | some (customer_no, invoice_no) =>
    let customer_name := strFieldOrNone row.customer_name
    let (customers1, cache1) :=
      customerPhase acc.customers acc.cache customer_no customer_name
    let fields := invoiceFields row invoice_no customer_no (customerNameIn customers1 customer_no)
    match acc.invoices.find? (fun i => i.invoice_no == invoice_no) with
    | some _ =>
      { customers := customers1, invoices := updateFirstInvoice acc.invoices invoice_no fields,
        cache := cache1, imported := acc.imported }
    | Option.none =>
      { customers := customers1, invoices := acc.invoices ++ [fields],
        cache := cache1, imported := acc.imported + 1 }

/-- Embeds `import_invoices_df` from `app/importers.py`: the row loop over
the aging file, returning the updated store and the count of newly
inserted invoices. -/
def import_invoices_df (db : DB) (rows : List InvoiceRow) : DB × Nat :=
  let acc := rows.foldl invoicesStep
    { customers := db.customers, invoices := db.invoices, cache := [], imported := 0 }
  ({ db with customers := acc.customers, invoices := acc.invoices }, acc.imported)

theorem find?_eq_none_of_not_mem_keys {α : Type} (key : α → String) (l : List α) (k : String)
    (h : k ∉ l.map key) : l.find? (fun a => key a == k) = Option.none := by
  induction l with
  | nil => rfl
  | cons x rest ih =>
    simp only [List.map_cons, List.mem_cons, not_or] at h
    rw [List.find?_cons_of_neg _ (by simp only [beq_iff_eq]; exact Ne.symm h.1)]
    exact ih h.2

theorem keys_of_find?_eq_some {α : Type} (key : α → String) (l : List α) (k : String) (x : α)
    (h : l.find? (fun a => key a == k) = some x) : k ∈ l.map key := by
  by_contra hk
  rw [find?_eq_none_of_not_mem_keys key l k hk] at h
  cases h

theorem find?_isSome_of_mem_keys {α : Type} (key : α → String) (l : List α) (k : String)
    (h : k ∈ l.map key) : (l.find? (fun a => key a == k)).isSome := by
  induction l with
  | nil => simp at h
  | cons x rest ih =>
    by_cases hx : key x = k
    · rw [List.find?_cons_of_pos _ (by simp [hx])]
      rfl
    · rw [List.find?_cons_of_neg _ (by simp [hx])]
      apply ih
      simp only [List.map_cons, List.mem_cons] at h
      exact h.resolve_left (fun hh => hx hh.symm)

/-- Two stores with unique keys, the same key sequence and the same lookup
at every key are equal. -/
theorem ext_by_find {α : Type} (key : α → String) (l l' : List α)
    (hnd : (l.map key).Nodup) (hk : l.map key = l'.map key)
    (hf : ∀ k, l.find? (fun a => key a == k) = l'.find? (fun a => key a == k)) : l = l' := by
  induction l generalizing l' with
  | nil =>
    cases l' with
    | nil => rfl
    | cons y t => simp at hk
  | cons x t ih =>
    cases l' with
    | nil => simp at hk
    | cons y t' =>
      simp only [List.map_cons, List.cons.injEq] at hk
      simp only [List.map_cons, List.nodup_cons] at hnd
      have hxy : x = y := by
        have h1 := hf (key x)
        rw [List.find?_cons_of_pos _ (by simp),
          List.find?_cons_of_pos _ (by simp [hk.1])] at h1
        exact Option.some.inj h1
      have htt : t = t' := by
        refine ih t' hnd.2 hk.2 ?_
        intro k
        by_cases hkk : k = key x
        · subst hkk
          rw [find?_eq_none_of_not_mem_keys key t _ hnd.1,
            find?_eq_none_of_not_mem_keys key t' _ (by rw [← hk.2]; exact hnd.1)]
        · have h1 := hf k
          rw [List.find?_cons_of_neg _ (by simp only [beq_iff_eq]; exact Ne.symm hkk),
            List.find?_cons_of_neg _
              (by rw [← hk.1]; simp only [beq_iff_eq]; exact Ne.symm hkk)] at h1
          exact h1
      rw [hxy, htt]

/-- The invoice upsert of one import row: replace the first invoice with
this invoice number, or append a fresh one. -/
def invUpsert (l : List Invoice) (e : String × Invoice) : List Invoice :=
  match l.find? (fun i => i.invoice_no == e.1) with
  | some _ => updateFirstInvoice l e.1 e.2
  | Option.none => l ++ [e.2]

/-- Keyed invoice values carried by the rows of a batch, in row order
(skipped rows contribute nothing); the written record does not depend on
the customer object when the row carries a customer name, so it is taken
with `custName := none`. -/
def invEvents (rows : List InvoiceRow) : List (String × Invoice) :=
  rows.filterMap (fun r => (rowKey r).map (fun kv => (kv.2, invoiceFields r kv.2 kv.1 Option.none)))

/-- The value of the last event of a batch carrying a given key, if any. -/
def lastEv : List (String × Invoice) → String → Option Invoice
  | [], _ => Option.none
  | e :: rest, k =>
    match lastEv rest k with
    | some v => some v
    | Option.none => if e.1 = k then some e.2 else Option.none

theorem keys_updateFirstInvoice (l : List Invoice) (no : String) (v : Invoice)
    (hv : v.invoice_no = no) :
    (updateFirstInvoice l no v).map Invoice.invoice_no = l.map Invoice.invoice_no := by
  induction l with
  | nil => rfl
  | cons i rest ih =>
    by_cases h : i.invoice_no = no
    · simp [updateFirstInvoice, h, hv]
    · simp [updateFirstInvoice, h, ih]

theorem find?_updateFirstInvoice (l : List Invoice) (no : String) (v : Invoice) (k : String)
    (hv : v.invoice_no = no) :
    (updateFirstInvoice l no v).find? (fun i => i.invoice_no == k)
      = if no = k then (l.find? (fun i => i.invoice_no == no)).map (fun _ => v)
        else l.find? (fun i => i.invoice_no == k) := by
  induction l with
  | nil => simp [updateFirstInvoice]
  | cons i rest ih =>
    by_cases h : i.invoice_no = no
    · simp only [updateFirstInvoice, if_pos (by simp [h] : (i.invoice_no == no) = true)]
      by_cases hk : no = k
      · subst hk
        rw [List.find?_cons_of_pos _ (by simp [hv]), if_pos rfl,
          List.find?_cons_of_pos _ (by simp [h])]
        rfl
      · rw [List.find?_cons_of_neg _ (by simp [hv, hk]), if_neg hk,
          List.find?_cons_of_neg _ (by simp [h, hk])]
    · simp only [updateFirstInvoice,
        if_neg (by simp [h] : ¬ ((i.invoice_no == no) = true))]
      by_cases hk : no = k
      · subst hk
        rw [List.find?_cons_of_neg _ (by simp [h]), ih, if_pos rfl, if_pos rfl,
          List.find?_cons_of_neg _ (by simp [h])]
      · by_cases hik : i.invoice_no = k
        · rw [List.find?_cons_of_pos _ (by simp [hik]), if_neg hk,
            List.find?_cons_of_pos _ (by simp [hik])]
        · rw [List.find?_cons_of_neg _ (by simp [hik]), ih, if_neg hk, if_neg hk,
            List.find?_cons_of_neg _ (by simp [hik])]

theorem find?_invUpsert (l : List Invoice) (e : String × Invoice) (k : String)
    (hv : e.2.invoice_no = e.1) :
    (invUpsert l e).find? (fun i => i.invoice_no == k)
      = if e.1 = k then some e.2 else l.find? (fun i => i.invoice_no == k) := by
  unfold invUpsert
  rcases hfind : l.find? (fun i => i.invoice_no == e.1) with _ | w <;> rw [hfind]
  · rw [List.find?_append]
    by_cases hk : e.1 = k
    · subst hk
      rw [hfind]
      simp [List.find?_cons, hv]
    · rw [if_neg hk]
      rcases hl : l.find? (fun i => i.invoice_no == k) with _ | u
      · simp [List.find?_cons, hv, hk, Option.or, hl]
      · simp [Option.or, hl]
  · rw [find?_updateFirstInvoice l e.1 e.2 k hv]
    by_cases hk : e.1 = k
    · rw [if_pos hk, if_pos hk, hfind]
      rfl
    · rw [if_neg hk, if_neg hk]

theorem keys_invUpsert (l : List Invoice) (e : String × Invoice)
    (hv : e.2.invoice_no = e.1) :
    (invUpsert l e).map Invoice.invoice_no
      = if (l.find? (fun i => i.invoice_no == e.1)).isSome
        then l.map Invoice.invoice_no else l.map Invoice.invoice_no ++ [e.1] := by
  unfold invUpsert
  rcases hfind : l.find? (fun i => i.invoice_no == e.1) with _ | w <;> rw [hfind]
  · simp [hv]
  · simp [keys_updateFirstInvoice l e.1 e.2 hv]

theorem lastEv_cons (e : String × Invoice) (rest : List (String × Invoice)) (k : String) :
    lastEv (e :: rest) k
      = match lastEv rest k with
        | some v => some v
        | Option.none => if e.1 = k then some e.2 else Option.none := rfl

theorem lastEv_isSome_of_mem (es : List (String × Invoice)) (e : String × Invoice)
    (he : e ∈ es) : (lastEv es e.1).isSome := by
  induction es with
  | nil => cases he
  | cons e0 rest ih =>
    rw [lastEv_cons]
    rcases List.mem_cons.mp he with h | h
    · subst h
      rcases h2 : lastEv rest e.1 with _ | v <;> simp
    · have h3 := ih h
      rcases h2 : lastEv rest e.1 with _ | v
      · rw [h2] at h3
        simp at h3
      · simp

theorem find?_foldl_invUpsert (es : List (String × Invoice)) (l : List Invoice) (k : String)
    (hwf : ∀ e ∈ es, e.2.invoice_no = e.1) :
    (es.foldl invUpsert l).find? (fun i => i.invoice_no == k)
      = match lastEv es k with
        | some v => some v
        | Option.none => l.find? (fun i => i.invoice_no == k) := by
  induction es generalizing l with
  | nil => rfl
  | cons e rest ih =>
    rw [List.foldl_cons, ih _ (fun x hx => hwf x (List.mem_cons_of_mem e hx)), lastEv_cons]
    rcases h2 : lastEv rest k with _ | v
    · rw [find?_invUpsert l e k (hwf e (List.mem_cons_self e rest))]
      by_cases hk : e.1 = k <;> simp [hk]
    · rfl

theorem keys_foldl_invUpsert_of_present (es : List (String × Invoice)) (l : List Invoice)
    (hwf : ∀ e ∈ es, e.2.invoice_no = e.1)
    (hp : ∀ e ∈ es, (l.find? (fun i => i.invoice_no == e.1)).isSome) :
    (es.foldl invUpsert l).map Invoice.invoice_no = l.map Invoice.invoice_no := by
  induction es generalizing l with
  | nil => rfl
  | cons e rest ih =>
    rw [List.foldl_cons]
    have hwfe := hwf e (List.mem_cons_self e rest)
    have hkeys := keys_invUpsert l e hwfe
    rw [if_pos (hp e (List.mem_cons_self e rest))] at hkeys
    rw [ih (invUpsert l e) (fun x hx => hwf x (List.mem_cons_of_mem e hx)) ?_, hkeys]
    intro x hx
    rw [find?_invUpsert l e x.1 hwfe]
    by_cases hk : e.1 = x.1
    · simp [hk]
    · rw [if_neg hk]
      exact hp x (List.mem_cons_of_mem e hx)

theorem nodup_keys_foldl_invUpsert (es : List (String × Invoice)) (l : List Invoice)
    (hwf : ∀ e ∈ es, e.2.invoice_no = e.1)
    (hnd : (l.map Invoice.invoice_no).Nodup) :
    ((es.foldl invUpsert l).map Invoice.invoice_no).Nodup := by
  induction es generalizing l with
  | nil => exact hnd
  | cons e rest ih =>
    rw [List.foldl_cons]
    refine ih (invUpsert l e) (fun x hx => hwf x (List.mem_cons_of_mem e hx)) ?_
    rw [keys_invUpsert l e (hwf e (List.mem_cons_self e rest))]
    rcases hfind : l.find? (fun i => i.invoice_no == e.1) with _ | w <;> rw [hfind]
    · simp only [Option.isSome_none, Bool.false_eq_true, if_false]
      refine List.Nodup.append hnd (List.nodup_singleton _) ?_
      intro a ha hb
      rw [List.mem_singleton] at hb
      subst hb
      have h4 := find?_isSome_of_mem_keys Invoice.invoice_no l e.1 ha
      rw [hfind] at h4
      simp at h4
    · simpa using hnd

/-- Upserting the same keyed batch twice gives the same invoice store as
upserting it once (keys assumed unique, as the primary key guarantees). -/
theorem invUpsert_fold_idem (es : List (String × Invoice)) (l : List Invoice)
    (hwf : ∀ e ∈ es, e.2.invoice_no = e.1)
    (hnd : (l.map Invoice.invoice_no).Nodup) :
    es.foldl invUpsert (es.foldl invUpsert l) = es.foldl invUpsert l := by
  have hpresent : ∀ e ∈ es, ((es.foldl invUpsert l).find? (fun i => i.invoice_no == e.1)).isSome := by
    intro e he
    rw [find?_foldl_invUpsert es l e.1 hwf]
    have h3 := lastEv_isSome_of_mem es e he
    rcases h2 : lastEv es e.1 with _ | v
    · rw [h2] at h3
      simp at h3
    · rfl
  refine ext_by_find Invoice.invoice_no _ _ ?_ ?_ ?_
  · exact nodup_keys_foldl_invUpsert es (es.foldl invUpsert l) hwf
      (nodup_keys_foldl_invUpsert es l hwf hnd)
  · exact keys_foldl_invUpsert_of_present es (es.foldl invUpsert l) hwf hpresent
  · intro k
    rw [find?_foldl_invUpsert es _ k hwf, find?_foldl_invUpsert es l k hwf]
    rcases hle : lastEv es k with _ | v <;> rfl

/-- The customer upsert as a fold step over (customer number, customer
name) events. -/
def custStep (s : List Customer × List String) (e : String × Option String) :
    List Customer × List String :=
  customerPhase s.1 s.2 e.1 e.2

/-- Customer events carried by the rows of an invoice batch, in row
order. -/
def custEvents (rows : List InvoiceRow) : List (String × Option String) :=
  rows.filterMap (fun r => (rowKey r).map (fun kv => (kv.1, strFieldOrNone r.customer_name)))

/-- Evolution of the single store row with key `k` under the customer
events: `base` is the current row (if any), `cached` whether `k` is
already in the per-batch cache. -/
def custTrace (k : String) : List (String × Option String) → Option Customer → Bool →
    Option Customer × Bool
  | [], base, cached => (base, cached)
  | (c, n) :: rest, base, cached =>
    if c = k then
      if cached then
        custTrace k rest (base.map (fun b =>
          if pyTruthy n && !(b.name == n) then { b with name := n } else b)) true
      else
        match base with
        | some _ => custTrace k rest base true
        | Option.none =>
          custTrace k rest
            (some { customer_no := k, name := pyOr n (some k), region_id := none }) true
    else custTrace k rest base cached

theorem custTrace_cons (k c : String) (n : Option String)
    (rest : List (String × Option String)) (base : Option Customer) (cached : Bool) :
    custTrace k ((c, n) :: rest) base cached
      = if c = k then
          (if cached then
            custTrace k rest (base.map (fun b =>
              if pyTruthy n && !(b.name == n) then { b with name := n } else b)) true
          else
            match base with
            | some _ => custTrace k rest base true
            | Option.none =>
              custTrace k rest
                (some { customer_no := k, name := pyOr n (some k), region_id := none }) true)
        else custTrace k rest base cached := rfl

theorem nameUpdate_keeps_no (n : Option String) (c0 : Customer) :
    (if pyTruthy n && !(c0.name == n) then { c0 with name := n } else c0).customer_no
      = c0.customer_no := by
  by_cases h : pyTruthy n && !(c0.name == n) <;> simp [h]

theorem keys_updateFirstCustomer (l : List Customer) (no : String) (f : Customer → Customer)
    (hf : ∀ c, (f c).customer_no = c.customer_no) :
    (updateFirstCustomer l no f).map Customer.customer_no = l.map Customer.customer_no := by
  induction l with
  | nil => rfl
  | cons c rest ih =>
    by_cases h : c.customer_no = no
    · simp [updateFirstCustomer, h, hf]
    · simp [updateFirstCustomer, h, ih]

theorem find?_updateFirstCustomer (l : List Customer) (no : String) (f : Customer → Customer)
    (k : String) (hf : ∀ c, (f c).customer_no = c.customer_no) :
    (updateFirstCustomer l no f).find? (fun c => c.customer_no == k)
      = if no = k then (l.find? (fun c => c.customer_no == no)).map f
        else l.find? (fun c => c.customer_no == k) := by
  induction l with
  | nil => simp [updateFirstCustomer]
  | cons c rest ih =>
    by_cases h : c.customer_no = no
    · simp only [updateFirstCustomer, if_pos (by simp [h] : (c.customer_no == no) = true)]
      by_cases hk : no = k
      · subst hk
        rw [List.find?_cons_of_pos _ (by simp [hf, h]), if_pos rfl,
          List.find?_cons_of_pos _ (by simp [h])]
        rfl
      · rw [List.find?_cons_of_neg _ (by simp [hf, h, hk]), if_neg hk,
          List.find?_cons_of_neg _ (by simp [h, hk])]
    · simp only [updateFirstCustomer,
        if_neg (by simp [h] : ¬ ((c.customer_no == no) = true))]
      by_cases hk : no = k
      · subst hk
        rw [List.find?_cons_of_neg _ (by simp [h]), ih, if_pos rfl, if_pos rfl,
          List.find?_cons_of_neg _ (by simp [h])]
      · by_cases hck : c.customer_no = k
        · rw [List.find?_cons_of_pos _ (by simp [hck]), if_neg hk,
            List.find?_cons_of_pos _ (by simp [hck])]
        · rw [List.find?_cons_of_neg _ (by simp [hck]), ih, if_neg hk, if_neg hk,
            List.find?_cons_of_neg _ (by simp [hck])]

theorem contains_keys_eq_isSome (l : List Customer) (k : String) :
    (l.map Customer.customer_no).contains k = (l.find? (fun c => c.customer_no == k)).isSome := by
  induction l with
  | nil => rfl
  | cons c rest ih =>
    by_cases h : c.customer_no = k
    · rw [List.find?_cons_of_pos _ (by simp [h])]
      simp [h]
    · rw [List.find?_cons_of_neg _ (by simp [h]), List.map_cons, List.contains_cons, ih]
      simp [Ne.symm h]

theorem contains_cons_self (K : List String) (c : String) : ((c :: K).contains c) = true := by
  simp [List.contains_cons]

theorem contains_cons_ne (K : List String) (c k : String) (h : ¬ c = k) :
    ((c :: K).contains k) = K.contains k := by
  rw [List.contains_cons, show (k == c) = false from by simp [Ne.symm h]]
  simp

theorem custStep_cached (C : List Customer) (K : List String) (c : String) (n : Option String)
    (hcache : K.contains c = true) :
    custStep (C, K) (c, n)
      = (updateFirstCustomer C c (fun c0 =>
          if pyTruthy n && !(c0.name == n) then { c0 with name := n } else c0), K) := by
  unfold custStep customerPhase
  rw [if_pos hcache]

theorem custStep_known (C : List Customer) (K : List String) (c : String) (n : Option String)
    (w : Customer) (hcache : K.contains c = false)
    (hfind : C.find? (fun c0 => c0.customer_no == c) = some w) :
    custStep (C, K) (c, n) = (C, c :: K) := by
  unfold custStep customerPhase
  rw [if_neg (show ¬ (K.contains c = true) by rw [hcache]; simp), hfind]

theorem custStep_new (C : List Customer) (K : List String) (c : String) (n : Option String)
    (hcache : K.contains c = false)
    (hfind : C.find? (fun c0 => c0.customer_no == c) = Option.none) :
    custStep (C, K) (c, n)
      = (C ++ [{ customer_no := c, name := pyOr n (some c), region_id := none }], c :: K) := by
  unfold custStep customerPhase
  rw [if_neg (show ¬ (K.contains c = true) by rw [hcache]; simp), hfind]

/-- Simulation: after folding the customer events, the lookup of key `k`
equals the single-key trace started from the initial lookup and cache
membership. -/
theorem custFold_find (es : List (String × Option String)) (C : List Customer)
    (K : List String) (k : String) :
    (es.foldl custStep (C, K)).1.find? (fun c => c.customer_no == k)
      = (custTrace k es (C.find? (fun c => c.customer_no == k)) (K.contains k)).1 := by
  induction es generalizing C K with
  | nil => rfl
  | cons e rest ih =>
    obtain ⟨c, n⟩ := e
    rw [List.foldl_cons, custTrace_cons]
    by_cases hcache : K.contains c = true
    · rw [custStep_cached C K c n hcache, ih,
        find?_updateFirstCustomer _ _ _ _ (nameUpdate_keeps_no n)]
      by_cases hck : c = k
      · subst hck
        rw [if_pos rfl, if_pos rfl, hcache, if_pos rfl]
      · rw [if_neg hck, if_neg hck]
    · rw [Bool.not_eq_true] at hcache
      rcases hfind : C.find? (fun c0 => c0.customer_no == c) with _ | w
      · rw [custStep_new C K c n hcache hfind, ih]
        by_cases hck : c = k
        · subst hck
          rw [if_pos rfl, hcache, List.find?_append, hfind,
            List.find?_cons_of_pos _ (by simp), contains_cons_self]
          rfl
        · rw [if_neg hck, List.find?_append,
            List.find?_cons_of_neg _ (by simp [hck]), contains_cons_ne K c k hck]
          rcases hfk : C.find? (fun c0 => c0.customer_no == k) with _ | u <;>
            simp [Option.or, hfk]
      · rw [custStep_known C K c n w hcache hfind, ih]
        by_cases hck : c = k
        · subst hck
          rw [if_pos rfl, hcache, hfind, contains_cons_self]
          simp
        · rw [if_neg hck, contains_cons_ne K c k hck]

/-- Key and cache evolution of the customer fold, as a pure function of
the initial key list and cache. -/
def keysAfter : List (String × Option String) → List String → List String →
    List String × List String
  | [], ks, K => (ks, K)
  | (c, _) :: rest, ks, K =>
    if K.contains c then keysAfter rest ks K
    else if ks.contains c then keysAfter rest ks (c :: K)
    else keysAfter rest (ks ++ [c]) (c :: K)

theorem keysAfter_cons (c : String) (n : Option String)
    (rest : List (String × Option String)) (ks K : List String) :
    keysAfter ((c, n) :: rest) ks K
      = if K.contains c then keysAfter rest ks K
        else if ks.contains c then keysAfter rest ks (c :: K)
        else keysAfter rest (ks ++ [c]) (c :: K) := rfl

theorem custFold_keys (es : List (String × Option String)) (C : List Customer)
    (K : List String) :
    ((es.foldl custStep (C, K)).1.map Customer.customer_no, (es.foldl custStep (C, K)).2)
      = keysAfter es (C.map Customer.customer_no) K := by
  induction es generalizing C K with
  | nil => rfl
  | cons e rest ih =>
    obtain ⟨c, n⟩ := e
    rw [List.foldl_cons, keysAfter_cons]
    by_cases hcache : K.contains c = true
    · rw [if_pos hcache, custStep_cached C K c n hcache, ih,
        keys_updateFirstCustomer _ _ _ (nameUpdate_keeps_no n)]
    · rw [Bool.not_eq_true] at hcache
      rw [if_neg (show ¬ (K.contains c = true) by rw [hcache]; simp)]
      rcases hfind : C.find? (fun c0 => c0.customer_no == c) with _ | w
      · rw [show (C.map Customer.customer_no).contains c = false from by
          rw [contains_keys_eq_isSome, hfind]; rfl]
        rw [if_neg (by simp), custStep_new C K c n hcache hfind, ih]
        simp
      · rw [show (C.map Customer.customer_no).contains c = true from by
          rw [contains_keys_eq_isSome, hfind]; rfl]
        rw [if_pos rfl, custStep_known C K c n w hcache hfind, ih]

theorem keysAfter_fst_mono (es : List (String × Option String)) (ks K : List String)
    (x : String) (hx : x ∈ ks) : x ∈ (keysAfter es ks K).1 := by
  induction es generalizing ks K with
  | nil => exact hx
  | cons e rest ih =>
    obtain ⟨c, n⟩ := e
    rw [keysAfter_cons]
    by_cases hcache : K.contains c = true
    · rw [if_pos hcache]
      exact ih ks K hx
    · rw [Bool.not_eq_true] at hcache
      rw [if_neg (by rw [hcache]; simp)]
      by_cases hks : ks.contains c = true
      · rw [if_pos hks]
        exact ih ks (c :: K) hx
      · rw [Bool.not_eq_true] at hks
        rw [if_neg (by rw [hks]; simp)]
        exact ih (ks ++ [c]) (c :: K) (List.mem_append_left _ hx)

theorem keysAfter_fst_mem (es : List (String × Option String)) (ks K : List String)
    (hK : ∀ x ∈ K, x ∈ ks) :
    ∀ e ∈ es, e.1 ∈ (keysAfter es ks K).1 := by
  induction es generalizing ks K with
  | nil => intro e he; cases he
  | cons e0 rest ih =>
    obtain ⟨c, n⟩ := e0
    intro e he
    rw [keysAfter_cons]
    by_cases hcache : K.contains c = true
    · rw [if_pos hcache]
      rcases List.mem_cons.mp he with h | h
      · subst h
        exact keysAfter_fst_mono rest ks K c (hK c (by simpa using hcache))
      · exact ih ks K hK e h
    · rw [Bool.not_eq_true] at hcache
      rw [if_neg (by rw [hcache]; simp)]
      by_cases hks : ks.contains c = true
      · rw [if_pos hks]
        rcases List.mem_cons.mp he with h | h
        · subst h
          exact keysAfter_fst_mono rest ks (c :: K) c (by simpa using hks)
        · refine ih ks (c :: K) ?_ e h
          intro x hx
          rcases List.mem_cons.mp hx with h1 | h1
          · subst h1
            simpa using hks
          · exact hK x h1
      · rw [Bool.not_eq_true] at hks
        rw [if_neg (by rw [hks]; simp)]
        rcases List.mem_cons.mp he with h | h
        · subst h
          exact keysAfter_fst_mono rest _ _ c (List.mem_append_right _ (List.mem_singleton_self _))
        · refine ih (ks ++ [c]) (c :: K) ?_ e h
          intro x hx
          rcases List.mem_cons.mp hx with h1 | h1
          · subst h1
            exact List.mem_append_right _ (List.mem_singleton_self _)
          · exact List.mem_append_left _ (hK x h1)

theorem keysAfter_fst_of_all_present (es : List (String × Option String)) (ks K : List String)
    (hes : ∀ e ∈ es, e.1 ∈ ks) : (keysAfter es ks K).1 = ks := by
  induction es generalizing K with
  | nil => rfl
  | cons e rest ih =>
    obtain ⟨c, n⟩ := e
    rw [keysAfter_cons]
    have hc : c ∈ ks := hes (c, n) (List.mem_cons_self _ _)
    by_cases hcache : K.contains c = true
    · rw [if_pos hcache]
      exact ih K (fun e he => hes e (List.mem_cons_of_mem _ he))
    · rw [Bool.not_eq_true] at hcache
      rw [if_neg (by rw [hcache]; simp), if_pos (by simpa using hc)]
      exact ih (c :: K) (fun e he => hes e (List.mem_cons_of_mem _ he))

theorem keysAfter_fst_nodup (es : List (String × Option String)) (ks K : List String)
    (hnd : ks.Nodup) : (keysAfter es ks K).1.Nodup := by
  induction es generalizing ks K with
  | nil => exact hnd
  | cons e rest ih =>
    obtain ⟨c, n⟩ := e
    rw [keysAfter_cons]
    by_cases hcache : K.contains c = true
    · rw [if_pos hcache]
      exact ih ks K hnd
    · rw [Bool.not_eq_true] at hcache
      rw [if_neg (by rw [hcache]; simp)]
      by_cases hks : ks.contains c = true
      · rw [if_pos hks]
        exact ih ks (c :: K) hnd
      · rw [Bool.not_eq_true] at hks
        rw [if_neg (by rw [hks]; simp)]
        refine ih (ks ++ [c]) (c :: K) ?_
        refine List.Nodup.append hnd (List.nodup_singleton _) ?_
        intro a ha hb
        rw [List.mem_singleton] at hb
        subst hb
        have : ks.contains a = true := by simpa using ha
        rw [hks] at this
        cases this

/-- Name carried by the last event with key `k`, if any. -/
def lastName : List (String × Option String) → String → Option (Option String)
  | [], _ => Option.none
  | e :: rest, k =>
    match lastName rest k with
    | some v => some v
    | Option.none => if e.1 = k then some e.2 else Option.none

theorem lastName_cons (e : String × Option String) (rest : List (String × Option String))
    (k : String) :
    lastName (e :: rest) k
      = match lastName rest k with
        | some v => some v
        | Option.none => if e.1 = k then some e.2 else Option.none := rfl

theorem customer_set_name (c0 : Customer) (n : Option String) (hn : pyTruthy n = true) :
    (if pyTruthy n && !(c0.name == n) then { c0 with name := n } else c0)
      = { c0 with name := n } := by
  by_cases h : c0.name = n
  · rw [if_neg (by simp [h])]
    cases c0
    simp_all
  · rw [if_pos (by simp [hn, h])]

/-- A cached run only ever rewrites the row's name; it ends at the last
event name (or keeps the current one). -/
theorem custTrace_cached (k : String) (es : List (String × Option String)) (c0 : Customer)
    (hname : ∀ e ∈ es, e.1 = k → pyTruthy e.2 = true) :
    (custTrace k es (some c0) true).1
      = some (match lastName es k with
              | some nm => { c0 with name := nm }
              | Option.none => c0) := by
  induction es generalizing c0 with
  | nil => rfl
  | cons e rest ih =>
    obtain ⟨c, n⟩ := e
    rw [custTrace_cons, lastName_cons]
    by_cases hck : c = k
    · rw [if_pos hck, if_pos rfl]
      simp only [Option.map_some']
      rw [customer_set_name c0 n (hname (c, n) (List.mem_cons_self _ _) hck)]
      rw [ih _ (fun e he hk => hname e (List.mem_cons_of_mem _ he) hk)]
      rcases hl : lastName rest k with _ | nm
      · rw [if_pos hck]
      · rfl
    · rw [if_neg hck]
      rw [ih _ (fun e he hk => hname e (List.mem_cons_of_mem _ he) hk)]
      rcases hl : lastName rest k with _ | nm
      · rw [if_neg hck]
      · rfl

theorem custTrace_uncached_some (k : String) (n : Option String)
    (rest : List (String × Option String)) (c0 : Customer) :
    custTrace k ((k, n) :: rest) (some c0) false = custTrace k rest (some c0) true := by
  rw [custTrace_cons, if_pos rfl]
  rfl

theorem custTrace_uncached_none (k : String) (n : Option String)
    (rest : List (String × Option String)) :
    custTrace k ((k, n) :: rest) Option.none false
      = custTrace k rest
          (some { customer_no := k, name := pyOr n (some k), region_id := none }) true := by
  rw [custTrace_cons, if_pos rfl]
  rfl

/-- Re-running the single-key trace from its own result changes
nothing. -/
theorem custTrace_idem (k : String) (es : List (String × Option String))
    (b : Option Customer)
    (hname : ∀ e ∈ es, e.1 = k → pyTruthy e.2 = true) :
    (custTrace k es (custTrace k es b false).1 false).1 = (custTrace k es b false).1 := by
  induction es generalizing b with
  | nil => rfl
  | cons e rest ih =>
    obtain ⟨c, n⟩ := e
    have hrest : ∀ e ∈ rest, e.1 = k → pyTruthy e.2 = true :=
      fun e he hk => hname e (List.mem_cons_of_mem _ he) hk
    by_cases hck : c = k
    · subst hck
      rcases b with _ | c0
      · rw [custTrace_uncached_none c n rest, custTrace_cached c rest _ hrest,
          custTrace_uncached_some c n rest _, custTrace_cached c rest _ hrest]
        rcases hl : lastName rest c with _ | nm <;> rfl
      · rw [custTrace_uncached_some c n rest c0, custTrace_cached c rest _ hrest,
          custTrace_uncached_some c n rest _, custTrace_cached c rest _ hrest]
        rcases hl : lastName rest c with _ | nm <;> rfl
    · rw [custTrace_cons, if_neg hck, custTrace_cons, if_neg hck]
      exact ih b hrest

/-- Folding the same customer events twice from a fresh cache gives the
same customer store as folding them once (all event names present, store
keys unique). -/
theorem custFold_idem (es : List (String × Option String)) (C : List Customer)
    (hname : ∀ e ∈ es, pyTruthy e.2 = true)
    (hnd : (C.map Customer.customer_no).Nodup) :
    (es.foldl custStep ((es.foldl custStep (C, [])).1, [])).1
      = (es.foldl custStep (C, [])).1 := by
  have hkeys1 : (es.foldl custStep (C, [])).1.map Customer.customer_no
      = (keysAfter es (C.map Customer.customer_no) []).1 :=
    congrArg Prod.fst (custFold_keys es C [])
  have hkeys2 : (es.foldl custStep ((es.foldl custStep (C, [])).1, [])).1.map Customer.customer_no
      = (keysAfter es ((es.foldl custStep (C, [])).1.map Customer.customer_no) []).1 :=
    congrArg Prod.fst (custFold_keys es _ [])
  have hmem : ∀ e ∈ es, e.1 ∈ (es.foldl custStep (C, [])).1.map Customer.customer_no := by
    intro e he
    rw [hkeys1]
    exact keysAfter_fst_mem es _ [] (by intro x hx; cases hx) e he
  refine ext_by_find Customer.customer_no _ _ ?_ ?_ ?_
  · rw [hkeys2, keysAfter_fst_of_all_present es _ [] hmem, hkeys1]
    exact keysAfter_fst_nodup es _ [] hnd
  · rw [hkeys2, keysAfter_fst_of_all_present es _ [] hmem]
  · intro k
    rw [custFold_find es _ [] k, custFold_find es C [] k]
    exact custTrace_idem k es _ (fun e he hk => hname e he)

theorem strFieldOrNone_truthy (v : Option String) (h : (strFieldOrNone v).isSome) :
    pyTruthy (strFieldOrNone v) = true := by
  unfold strFieldOrNone at *
  by_cases he : pyStrip (pyStr v) = ""
  · simp [he] at h
  · simp [he, pyTruthy]

theorem invoiceFields_custName_irrel (row : InvoiceRow) (ino cno : String)
    (a b : Option String) (h : (strFieldOrNone row.customer_name).isSome) :
    invoiceFields row ino cno a = invoiceFields row ino cno b := by
  have ht := strFieldOrNone_truthy row.customer_name h
  unfold invoiceFields
  simp [pyOr, ht]

theorem invEvents_wf (rows : List InvoiceRow) :
    ∀ e ∈ invEvents rows, e.2.invoice_no = e.1 := by
  intro e he
  unfold invEvents at he
  rw [List.mem_filterMap] at he
  obtain ⟨r, hr, hmap⟩ := he
  rcases hk : rowKey r with _ | kv
  · rw [hk] at hmap
    cases hmap
  · rw [hk] at hmap
    simp only [Option.map_some'] at hmap
    cases hmap
    rfl

theorem custEvents_truthy (rows : List InvoiceRow)
    (hname : ∀ r ∈ rows, (rowKey r).isSome → (strFieldOrNone r.customer_name).isSome) :
    ∀ e ∈ custEvents rows, pyTruthy e.2 = true := by
  intro e he
  unfold custEvents at he
  rw [List.mem_filterMap] at he
  obtain ⟨r, hr, hmap⟩ := he
  rcases hk : rowKey r with _ | kv
  · rw [hk] at hmap
    cases hmap
  · rw [hk] at hmap
    simp only [Option.map_some'] at hmap
    cases hmap
    exact strFieldOrNone_truthy _ (hname r hr (by rw [hk]; rfl))

/-- When every imported row carries a customer name, the row loop
decomposes into an independent customer fold and invoice upsert fold. -/
theorem invoicesFold_decompose (rows : List InvoiceRow) (C : List Customer) (I : List Invoice)
    (K : List String) (m : Nat)
    (hname : ∀ r ∈ rows, (rowKey r).isSome → (strFieldOrNone r.customer_name).isSome) :
    (rows.foldl invoicesStep ⟨C, I, K, m⟩).customers
        = ((custEvents rows).foldl custStep (C, K)).1
    ∧ (rows.foldl invoicesStep ⟨C, I, K, m⟩).cache
        = ((custEvents rows).foldl custStep (C, K)).2
    ∧ (rows.foldl invoicesStep ⟨C, I, K, m⟩).invoices
        = (invEvents rows).foldl invUpsert I := by
  induction rows generalizing C I K m with
  | nil => exact ⟨rfl, rfl, rfl⟩
  | cons r rest ih =>
    have hname' : ∀ r0 ∈ rest, (rowKey r0).isSome → (strFieldOrNone r0.customer_name).isSome :=
      fun r0 hr0 => hname r0 (List.mem_cons_of_mem _ hr0)
    rcases hk : rowKey r with _ | kv
    · have hstep : invoicesStep ⟨C, I, K, m⟩ r = ⟨C, I, K, m⟩ := by
        unfold invoicesStep
        rw [hk]
      have hce : custEvents (r :: rest) = custEvents rest := by
        unfold custEvents
        simp [List.filterMap_cons, hk]
      have hie : invEvents (r :: rest) = invEvents rest := by
        unfold invEvents
        simp [List.filterMap_cons, hk]
      rw [List.foldl_cons, hstep, hce, hie]
      exact ih C I K m hname'
    · obtain ⟨cno, ino⟩ := kv
      have hn : (strFieldOrNone r.customer_name).isSome :=
        hname r (List.mem_cons_self _ _) (by rw [hk]; rfl)
      have hce : custEvents (r :: rest)
          = (cno, strFieldOrNone r.customer_name) :: custEvents rest := by
        unfold custEvents
        simp [List.filterMap_cons, hk]
      have hie : invEvents (r :: rest)
          = (ino, invoiceFields r ino cno Option.none) :: invEvents rest := by
        unfold invEvents
        simp [List.filterMap_cons, hk]
      have hstep : invoicesStep ⟨C, I, K, m⟩ r
          = { customers := (custStep (C, K) (cno, strFieldOrNone r.customer_name)).1,
              invoices := invUpsert I (ino, invoiceFields r ino cno Option.none),
              cache := (custStep (C, K) (cno, strFieldOrNone r.customer_name)).2,
              imported :=
                if (I.find? (fun i => i.invoice_no == ino)).isSome then m else m + 1 } := by
        have hirr := invoiceFields_custName_irrel r ino cno
          (customerNameIn (customerPhase C K cno (strFieldOrNone r.customer_name)).1 cno)
          Option.none hn
        unfold invoicesStep invUpsert custStep
        rw [hk]
        rcases hcp : customerPhase C K cno (strFieldOrNone r.customer_name) with ⟨c1, k1⟩
        rw [hcp] at hirr
        simp only at hirr
        rcases hf : I.find? (fun i => i.invoice_no == ino) with _ | w <;>
          simp [hf, hcp, hirr]
      rw [List.foldl_cons, hstep, hce, hie, List.foldl_cons, List.foldl_cons]
      exact ih _ _ _ _ hname'

/-- An empty store. -/
def dbEmpty : DB :=
  { customers := [], invoices := [], payments := [], regions := [], settings := [] }

/-- First counterexample row: invoice I1 for customer C with a blank
customer-name cell. -/
def invRowE1 : InvoiceRow :=
  { transaction_number := some "I1", customer_number := some "C", customer_name := none,
    date := none, due_date := none, currency_code := none,
    total_amount := PyVal.none, open_balance := PyVal.none }

/-- Second counterexample row: invoice I2 for the same customer C, now
with name "B". -/
def invRowE2 : InvoiceRow :=
  { transaction_number := some "I2", customer_number := some "C", customer_name := some "B",
    date := none, due_date := none, currency_code := none,
    total_amount := PyVal.none, open_balance := PyVal.none }

/-- C4 counterexample: re-importing the identical two-row batch changes a
stored invoice field.  After the first run invoice I1 carries the
denormalized customer name "C" (the customer-number fallback, its row had
no name); the second run rewrites it to "B", the customer's refreshed
display name, so the stores differ. -/
theorem C4_counterexample :
    (import_invoices_df (import_invoices_df dbEmpty [invRowE1, invRowE2]).1
        [invRowE1, invRowE2]).1.invoices
      ≠ (import_invoices_df dbEmpty [invRowE1, invRowE2]).1.invoices := by
  decide

/-- C4 (amended): re-importing an identical invoice batch is idempotent —
same stored invoice count, same invoice and customer field values —
provided every imported row carries a non-blank customer name (the
counterexample shows a row with a blank name breaks this through the
denormalized-name fallback), under the database invariant that stored
customer numbers and invoice numbers are unique. -/
theorem C4_invoice_reimport_idempotent (db : DB) (rows : List InvoiceRow)
    (hC : (db.customers.map Customer.customer_no).Nodup)
    (hI : (db.invoices.map Invoice.invoice_no).Nodup)
    (hname : ∀ r ∈ rows, (rowKey r).isSome → (strFieldOrNone r.customer_name).isSome) :
    (import_invoices_df (import_invoices_df db rows).1 rows).1.invoices
        = (import_invoices_df db rows).1.invoices
    ∧ (import_invoices_df (import_invoices_df db rows).1 rows).1.customers
        = (import_invoices_df db rows).1.customers
    ∧ (import_invoices_df (import_invoices_df db rows).1 rows).1.invoices.length
        = (import_invoices_df db rows).1.invoices.length := by
  obtain ⟨h1c, h1k, h1i⟩ := invoicesFold_decompose rows db.customers db.invoices [] 0 hname
  obtain ⟨h2c, h2k, h2i⟩ := invoicesFold_decompose rows
    ((custEvents rows).foldl custStep (db.customers, [])).1
    ((invEvents rows).foldl invUpsert db.invoices) [] 0 hname
  have e3 : ∀ db2 : DB, (import_invoices_df db2 rows).1.invoices
      = (rows.foldl invoicesStep
          { customers := db2.customers, invoices := db2.invoices,
            cache := [], imported := 0 }).invoices := fun _ => rfl
  have e4 : ∀ db2 : DB, (import_invoices_df db2 rows).1.customers
      = (rows.foldl invoicesStep
          { customers := db2.customers, invoices := db2.invoices,
            cache := [], imported := 0 }).customers := fun _ => rfl
  have hinv : (import_invoices_df (import_invoices_df db rows).1 rows).1.invoices
      = (import_invoices_df db rows).1.invoices := by
    rw [e3 (import_invoices_df db rows).1, e4 db, e3 db, h1c, h1i, h2i]
    exact invUpsert_fold_idem (invEvents rows) db.invoices (invEvents_wf rows) hI
  have hcust : (import_invoices_df (import_invoices_df db rows).1 rows).1.customers
      = (import_invoices_df db rows).1.customers := by
    rw [e4 (import_invoices_df db rows).1, e4 db, e3 db, h1c, h1i, h2c]
    exact custFold_idem (custEvents rows) db.customers (custEvents_truthy rows hname) hC
  exact ⟨hinv, hcust, congrArg List.length hinv⟩

/-- A single well-named row used by the C4 witness. -/
def invRowW : InvoiceRow :=
  { transaction_number := some "I1", customer_number := some "C1",
    customer_name := some "Acme", date := some 0, due_date := some 10,
    currency_code := some "TRY", total_amount := PyVal.num 100,
    open_balance := PyVal.num 40 }

/-- Witness for the amended C4 at a concrete one-row batch over the empty
store. -/
theorem C4_invoice_reimport_idempotent_witness :
    (import_invoices_df (import_invoices_df dbEmpty [invRowW]).1 [invRowW]).1.invoices
      = (import_invoices_df dbEmpty [invRowW]).1.invoices :=
  (C4_invoice_reimport_idempotent dbEmpty [invRowW] (by decide) (by decide) (by decide)).1

/-- Is the invoice overdue: due date present and strictly before today
(`i.due_date is not None and i.due_date < today`). -/
def isOverdueInv (today : Int) (i : Invoice) : Bool :=
  match i.due_date with
  | some d => decide (d < today)
  | Option.none => false

/-- Is the invoice aged over 90 days (`(today - i.due_date).days > 90`). -/
def isOver90Inv (today : Int) (i : Invoice) : Bool :=
  match i.due_date with
  | some d => decide (90 < today - d)
  | Option.none => false

/-- One iteration of the dashboard late-fee loop (`app/main.py` lines
180-188): skip missing or nonpositive balances, missing or non-past due
dates, then accrue `open_balance * days_overdue * daily_rate`. -/
def lateFeeStep (today : Int) (daily_rate : ℚ) (acc : ℚ) (inv : Invoice) : ℚ :=
  match inv.open_balance with
  | Option.none => acc
  | some ob =>
    if ob ≤ 0 then acc
    else
      match inv.due_date with
      | Option.none => acc
      | some dd =>
        if today ≤ dd then acc
        else
          let days := today - dd
          if days ≤ 0 then acc
          else acc + ob * (days : ℚ) * daily_rate

/-- The dashboard's total current late-fee accrual over unpaid
invoices. -/
def dashboardLateFeeUnpaid (invoices : List Invoice) (today : Int) (daily_rate : ℚ) : ℚ :=
  invoices.foldl (lateFeeStep today daily_rate) 0

/-- The figures the `/dashboard` endpoint computes (`app/main.py` lines
124-228); the per-currency breakdowns are not claimed about and omitted.
`weighted_days` is the local variable of line 194 that feeds the risk
score (the code keeps it at 0.0). -/
structure DashboardOut where
  total_open : ℚ
  overdue : ℚ
  over90 : ℚ
  loss_30d : ℚ
  loss_30d_rows : Nat
  total_late_loss : ℚ
  risk_score : ℚ
  cost_of_cash_annual : ℚ
  late_fee_rate_annual : ℚ
  late_fee_unpaid_total : ℚ
  weighted_days : ℚ
deriving Repr, DecidableEq

/-- Embeds the `dashboard` endpoint of `app/main.py`. -/
def dashboard (db : DB) (today : Int) : DashboardOut :=
  let invoices := db.invoices
  let payments := db.payments
  let total_open := (invoices.map (fun i => i.open_balance.getD 0)).sum
  let overdue := ((invoices.filter (isOverdueInv today)).map (fun i => i.open_balance.getD 0)).sum
  let over90 := ((invoices.filter (isOver90Inv today)).map (fun i => i.open_balance.getD 0)).sum
  let cost_of_cash := get_cost_of_cash_annual db 45
  let late_fee_rate := get_late_fee_rate_annual db 36
  let last_30 := today - 30
  let pay_rows_30 := payments.filter (fun p =>
    match p.value_date with
    | some v => decide (last_30 ≤ v)
    | Option.none => false)
  let loss_30 := (pay_rows_30.map (fun p => calculate_late_loss_payment p cost_of_cash)).sum
  let total_late_loss := (payments.map (fun p => calculate_late_loss_payment p cost_of_cash)).sum
  let daily_late_fee_rate := late_fee_rate / 100 / 365
  let total_late_fee_unpaid := dashboardLateFeeUnpaid invoices today daily_late_fee_rate
  let overdue_ratio := if total_open = 0 then 0 else overdue / total_open
  let over90_ratio := if overdue = 0 then 0 else over90 / overdue
  let weighted_days : ℚ := 0
  let loss_ratio := if total_open = 0 then 0 else loss_30 / total_open
  { total_open := total_open, overdue := overdue, over90 := over90,
    loss_30d := loss_30, loss_30d_rows := pay_rows_30.length,
    total_late_loss := total_late_loss,
    risk_score := calculate_risk_score overdue_ratio over90_ratio weighted_days loss_ratio,
    cost_of_cash_annual := cost_of_cash, late_fee_rate_annual := late_fee_rate,
    late_fee_unpaid_total := total_late_fee_unpaid, weighted_days := weighted_days }

/-- The result record of `_customer_metrics` in `app/main.py`. -/
structure CustomerMetrics where
  customer_no : String
  total_open : ℚ
  overdue : ℚ
  over90 : ℚ
  unpaid_invoice_count : Nat
  late_fee_unpaid : ℚ
  weighted_overdue_days : ℚ
  loss_30d : ℚ
  total_late_loss : ℚ
  risk_score : ℚ
deriving Repr, DecidableEq

/-- The payment rows `_customer_metrics` considers for a customer: matched
by the customer record's display name when it exists and is non-empty,
else by customer number. -/
def customerPaymentsOf (db : DB) (customer_no : String) : List Payment :=
  match db.customers.find? (fun c => c.customer_no == customer_no) with
  | some cust =>
    if pyTruthy cust.name then
      db.payments.filter (fun p => p.customer_name == cust.name)
    else
      db.payments.filter (fun p => p.customer_no == some customer_no)
  | Option.none => db.payments.filter (fun p => p.customer_no == some customer_no)

/-- The weighted-days loop of `_customer_metrics` (lines 341-351):
accumulates `(Σ ob * days floored at 0, Σ ob)` over the overdue
invoices. -/
def weightedPair (today : Int) (overdue_invoices : List Invoice) : ℚ × ℚ :=
  overdue_invoices.foldl (fun nd inv =>
    let ob := inv.open_balance.getD 0
    let d0 := today - inv.due_date.getD 0
    let days := if d0 < 0 then 0 else d0
    (nd.1 + ob * (days : ℚ), nd.2 + ob)) (0, 0)

/-- The per-customer late-fee loop of `_customer_metrics` (lines 371-379)
over the unpaid invoices. -/
def customerLateFeeUnpaid (unpaid : List Invoice) (today : Int) (daily_rate : ℚ) : ℚ :=
  unpaid.foldl (fun acc inv =>
    match inv.due_date with
    | Option.none => acc
    | some dd =>
      if today ≤ dd then acc
      else
        let days := today - dd
        if days ≤ 0 then acc
        else acc + (inv.open_balance.getD 0) * (days : ℚ) * daily_rate) 0

/-- Embeds `_customer_metrics` from `app/main.py` (the leading underscore
is dropped from the Lean name). -/
def customer_metrics (db : DB) (customer_no : String) (cost_of_cash : ℚ) (today : Int) :
    CustomerMetrics :=
  let invoices := db.invoices.filter (fun i => i.customer_no == some customer_no)
  let payments := customerPaymentsOf db customer_no
  let unpaid_invoices := invoices.filter (fun i => decide (0 < i.open_balance.getD 0))
  let unpaid_invoice_count := unpaid_invoices.length
  let total_open := (invoices.map (fun i => i.open_balance.getD 0)).sum
  let overdue := ((invoices.filter (isOverdueInv today)).map (fun i => i.open_balance.getD 0)).sum
  let over90 := ((invoices.filter (isOver90Inv today)).map (fun i => i.open_balance.getD 0)).sum
  let overdue_invoices := invoices.filter (isOverdueInv today)
  let weighted_days :=
    if overdue_invoices.isEmpty then 0
    else
      let nd := weightedPair today overdue_invoices
      if nd.2 = 0 then 0 else nd.1 / nd.2
  let last_30 := today - 30
  let loss_30 := ((payments.filter (fun p =>
      match p.value_date with
      | some v => decide (last_30 ≤ v)
      | Option.none => false)).map (fun p => calculate_late_loss_payment p cost_of_cash)).sum
  let total_late_loss_customer :=
    (payments.map (fun p => calculate_late_loss_payment p cost_of_cash)).sum
  let late_fee_rate := get_late_fee_rate_annual db 36
  let daily_late_fee_rate := late_fee_rate / 100 / 365
  let late_fee_unpaid := customerLateFeeUnpaid unpaid_invoices today daily_late_fee_rate
  let overdue_ratio := if total_open = 0 then 0 else overdue / total_open
  let over90_ratio := if overdue = 0 then 0 else over90 / overdue
  let loss_ratio := if total_open = 0 then 0 else loss_30 / total_open
  { customer_no := customer_no, total_open := total_open, overdue := overdue,
    over90 := over90, unpaid_invoice_count := unpaid_invoice_count,
    late_fee_unpaid := late_fee_unpaid, weighted_overdue_days := weighted_days,
    loss_30d := loss_30, total_late_loss := total_late_loss_customer,
    risk_score := calculate_risk_score overdue_ratio over90_ratio weighted_days loss_ratio }

/-- API failure surfaced by an endpoint (`HTTPException` 404). -/
inductive ApiError where
  | notFound (detail : String)
deriving Repr, DecidableEq

/-- Result of the `/customers/{customer_no}/summary` endpoint. -/
structure CustomerSummaryOut where
  metrics : CustomerMetrics
  customer_name : Option String
  region_id : Option Int
deriving Repr, DecidableEq

/-- Embeds the `customer_summary` endpoint of `app/main.py`: 404 when the
customer is unknown. -/
def customer_summary (db : DB) (customer_no : String) (today : Int) :
    Except ApiError CustomerSummaryOut :=
  match db.customers.find? (fun c => c.customer_no == customer_no) with
  | Option.none => Except.error (ApiError.notFound "Musteri bulunamadi")
  | some customer =>
    let cost_of_cash := get_cost_of_cash_annual db 45
    Except.ok { metrics := customer_metrics db customer_no cost_of_cash today,
                customer_name := customer.name, region_id := customer.region_id }

/-- One row of the `/customers/{customer_no}/invoices` response. -/
structure InvoiceListItem where
  invoice_no : String
  invoice_date : Option Int
  due_date : Option Int
  currency : Option String
  total_amount : Option ℚ
  open_balance : Option ℚ
  overdue_days : Int
  is_overdue : Bool
deriving Repr, DecidableEq

/-- Embeds the `customer_invoices` endpoint of `app/main.py`: it performs
no existence check and always answers with a (possibly empty) list. -/
def customer_invoices (db : DB) (customer_no : String) (today : Int) :
    Except ApiError (List InvoiceListItem) :=
  Except.ok ((db.invoices.filter (fun i => i.customer_no == some customer_no)).map
    (fun inv =>
      let od : Int × Bool :=
        match inv.due_date with
        | some dd => if 0 < today - dd then (today - dd, true) else (0, false)
        | Option.none => (0, false)
      { invoice_no := inv.invoice_no, invoice_date := inv.invoice_date,
        due_date := inv.due_date, currency := inv.currency,
        total_amount := inv.total_amount, open_balance := inv.open_balance,
        overdue_days := od.1, is_overdue := od.2 }))

/-- One row of the `/customers/{customer_no}/late-payments` response (the
surrogate payment id is omitted). -/
structure LatePaymentItem where
  ar_invoice_no : Option String
  value_date : Option Int
  delay_days : Int
  applied_amount : Option ℚ
  payment_amount_try : Option ℚ
  loss : ℚ
deriving Repr, DecidableEq

/-- Embeds the `customer_late_payments` endpoint of `app/main.py`: it
performs no existence check and always answers with a (possibly empty)
list. -/
def customer_late_payments (db : DB) (customer_no : String) :
    Except ApiError (List LatePaymentItem) :=
  let cost_of_cash := get_cost_of_cash_annual db 45
  let payments : List Payment :=
    match db.customers.find? (fun c => c.customer_no == customer_no) with
    | some customer =>
      if pyTruthy customer.name then
        db.payments.filter (fun p => p.customer_name == customer.name)
      else db.payments.filter (fun p => p.customer_no == some customer_no)
    | Option.none => db.payments.filter (fun p => p.customer_no == some customer_no)
  Except.ok (payments.map (fun p =>
    { ar_invoice_no := p.ar_invoice_no, value_date := p.value_date,
      delay_days := p.delay_days, applied_amount := p.applied_amount,
      payment_amount_try := p.payment_amount_try,
      loss := calculate_late_loss_payment p cost_of_cash }))

/-- One entry of the ranking endpoints: the metrics plus the customer's
display name and region. -/
structure RankedCustomer where
  m : CustomerMetrics
  customer_name : Option String
  region_id : Option Int
deriving Repr, DecidableEq

/-- The unsorted qualifying list of `top_risky_customers` (lines 425-443):
region filter, metrics per customer, and the skip of customers with no
open balance, no loss and no unpaid invoice. -/
def topRiskyRaw (db : DB) (region_id : Option Int) (today : Int) : List RankedCustomer :=
  let cost_of_cash := get_cost_of_cash_annual db 45
  let customers : List Customer :=
    match region_id with
    | some rid => db.customers.filter (fun c => c.region_id == some rid)
    | Option.none => db.customers
  customers.filterMap (fun c =>
    let m := customer_metrics db c.customer_no cost_of_cash today
    if m.total_open ≤ 0 ∧ m.loss_30d ≤ 0 ∧ m.total_late_loss ≤ 0 ∧ m.unpaid_invoice_count = 0
    then Option.none
    else some { m := m, customer_name := c.name, region_id := c.region_id })

/-- Merging of two rows sharing a display name for `sort_by = "loss"`
(lines 447-465): amounts are summed, the risk score keeps the maximum. -/
def mergeLossGroup (g r : RankedCustomer) : RankedCustomer :=
  { g with m := { g.m with
      total_open := g.m.total_open + r.m.total_open,
      overdue := g.m.overdue + r.m.overdue,
      over90 := g.m.over90 + r.m.over90,
      loss_30d := g.m.loss_30d + r.m.loss_30d,
      total_late_loss := g.m.total_late_loss + r.m.total_late_loss,
      unpaid_invoice_count := g.m.unpaid_invoice_count + r.m.unpaid_invoice_count,
      late_fee_unpaid := g.m.late_fee_unpaid + r.m.late_fee_unpaid,
      risk_score := if g.m.risk_score < r.m.risk_score then r.m.risk_score else g.m.risk_score } }

/-- Grouping key: `customer_name or customer_no`. -/
def lossKey (r : RankedCustomer) : Option String :=
  pyOr r.customer_name (some r.m.customer_no)

/-- One step of the name-keyed grouping: merge into the existing entry
for this key, or append a new one. -/
def groupStep (acc : List (Option String × RankedCustomer)) (r : RankedCustomer) :
    List (Option String × RankedCustomer) :=
  if (acc.find? (fun kr => kr.1 == lossKey r)).isSome then
    acc.map (fun kr => if kr.1 == lossKey r then (kr.1, mergeLossGroup kr.2 r) else kr)
  else acc ++ [(lossKey r, r)]

/-- Name-keyed grouping used by `sort_by = "loss"`, preserving first
appearance order (a Python dict keeps insertion order). -/
def groupByName (rs : List RankedCustomer) : List RankedCustomer :=
  (rs.foldl groupStep []).map Prod.snd

/-- Embeds the `top_risky_customers` endpoint of `app/main.py`: the
qualifying list, sorted by the requested key (descending, stable) — with
the name-grouped variant for `sort_by = "loss"` — truncated to
`max 1 limit` entries. -/
def top_risky_customers (db : DB) (limit : Int) (region_id : Option Int) (sort_by : String)
    (today : Int) : List RankedCustomer :=
  let raw_results := topRiskyRaw db region_id today
  let results :=
    if sort_by = "loss" then
      (groupByName raw_results).mergeSort
        (fun a b => decide (b.m.total_late_loss ≤ a.m.total_late_loss))
    else if sort_by = "overdue" then
      raw_results.mergeSort (fun a b => decide (b.m.overdue ≤ a.m.overdue))
    else if sort_by = "unpaid" then
      raw_results.mergeSort
        (fun a b => decide (b.m.unpaid_invoice_count ≤ a.m.unpaid_invoice_count))
    else
      raw_results.mergeSort (fun a b => decide (b.m.risk_score ≤ a.m.risk_score))
  results.take (max 1 limit).toNat

/-- The unsorted qualifying list of `top_unpaid_customers` (lines
514-522): customers with at least one unpaid invoice. -/
def topUnpaidRaw (db : DB) (region_id : Option Int) (today : Int) : List RankedCustomer :=
  let cost_of_cash := get_cost_of_cash_annual db 45
  let customers : List Customer :=
    match region_id with
    | some rid => db.customers.filter (fun c => c.region_id == some rid)
    | Option.none => db.customers
  customers.filterMap (fun c =>
    let m := customer_metrics db c.customer_no cost_of_cash today
    if m.unpaid_invoice_count = 0 then Option.none
    else some { m := m, customer_name := c.name, region_id := c.region_id })

/-- Embeds the `top_unpaid_customers` endpoint of `app/main.py`. -/
def top_unpaid_customers (db : DB) (limit : Int) (region_id : Option Int) (today : Int) :
    List RankedCustomer :=
  ((topUnpaidRaw db region_id today).mergeSort
    (fun a b => decide (b.m.unpaid_invoice_count ≤ a.m.unpaid_invoice_count))).take
    (max 1 limit).toNat

/-- The unsorted qualifying list of `region_customers` (lines 696-704):
the region's customers with some open balance or recent loss. -/
def regionCustomersRaw (db : DB) (region_id : Int) (today : Int) : List RankedCustomer :=
  let cost_of_cash := get_cost_of_cash_annual db 45
  (db.customers.filter (fun c => c.region_id == some region_id)).filterMap (fun c =>
    let m := customer_metrics db c.customer_no cost_of_cash today
    if m.total_open ≤ 0 ∧ m.loss_30d ≤ 0 then Option.none
    else some { m := m, customer_name := c.name, region_id := c.region_id })

/-- Embeds the `region_customers` endpoint of `app/main.py`: 404 when the
region is unknown, else the region id, name and its riskiest customers
truncated to `max 1 limit`. -/
def region_customers (db : DB) (region_id : Int) (limit : Int) (today : Int) :
    Except ApiError (Int × Option String × List RankedCustomer) :=
  match db.regions.find? (fun r => r.id == region_id) with
  | Option.none => Except.error (ApiError.notFound "Bolge bulunamadi")
  | some region =>
    Except.ok (region.id, region.name,
      ((regionCustomersRaw db region_id today).mergeSort
        (fun a b => decide (b.m.risk_score ≤ a.m.risk_score))).take (max 1 limit).toNat)

/-- The late-fee contribution of one invoice, as claim C6 states it:
`open_balance * days_overdue * (rate/100/365)` for an unpaid invoice past
its due date, 0 otherwise. -/
def lateFeeContribution (today : Int) (rate : ℚ) (inv : Invoice) : ℚ :=
  match inv.open_balance, inv.due_date with
  | some ob, some dd =>
    if 0 < ob ∧ dd < today then ob * ((today - dd : Int) : ℚ) * (rate / 100 / 365) else 0
  | _, _ => 0

theorem lateFeeStep_eq (today : Int) (rate : ℚ) (acc : ℚ) (inv : Invoice) :
    lateFeeStep today (rate / 100 / 365) acc inv
      = acc + lateFeeContribution today rate inv := by
  unfold lateFeeStep lateFeeContribution
  rcases hob : inv.open_balance with _ | ob
  · simp
  · rcases hdd : inv.due_date with _ | dd
    · by_cases h0 : ob ≤ 0 <;> simp [h0]
    · simp only
      by_cases h0 : ob ≤ 0
      · rw [if_pos h0, if_neg (fun hc => absurd hc.1 (not_lt.mpr h0))]
        exact (add_zero acc).symm
      · rw [if_neg h0]
        by_cases hlt : today ≤ dd
        · rw [if_pos hlt, if_neg (fun hc => absurd hc.2 (not_lt.mpr hlt))]
          exact (add_zero acc).symm
        · rw [if_neg hlt, if_neg (by omega : ¬ (today - dd ≤ 0)),
            if_pos ⟨lt_of_not_le h0, lt_of_not_le hlt⟩]

theorem dashboardLateFee_eq_sum (invoices : List Invoice) (today : Int) (rate : ℚ) :
    dashboardLateFeeUnpaid invoices today (rate / 100 / 365)
      = (invoices.map (lateFeeContribution today rate)).sum := by
  suffices h : ∀ acc : ℚ, invoices.foldl (lateFeeStep today (rate / 100 / 365)) acc
      = acc + (invoices.map (lateFeeContribution today rate)).sum by
    have h2 := h 0
    rw [zero_add] at h2
    exact h2
  induction invoices with
  | nil => intro acc; simp
  | cons inv rest ih =>
    intro acc
    rw [List.foldl_cons, ih, lateFeeStep_eq, List.map_cons, List.sum_cons]
    ring

/-- An overdue, unpaid invoice worth 1000, due 10 days in the past
relative to day 0. -/
def invC6 : Invoice :=
  { invoice_no := "L1", customer_no := none, customer_name := none,
    invoice_date := none, due_date := some (-10), vade := none, currency := none,
    total_amount := none, open_balance := some 1000 }

/-- C6: the dashboard's late-fee accrual equals the sum over the stored
invoices of `open_balance * days_overdue * (annual_rate/100/365)` for
unpaid invoices past due (per-invoice contribution `lateFeeContribution`);
an invoice due today or later contributes exactly 0; and the worked
example (due 10 days ago, balance 1000, rate 36) contributes
`1000 * 10 * (0.36/365)`. -/
theorem C6_late_fee_accrual (db : DB) (today : Int) :
    ((dashboard db today).late_fee_unpaid_total
        = (db.invoices.map (lateFeeContribution today (get_late_fee_rate_annual db 36))).sum)
    ∧ (∀ inv : Invoice, ∀ rate : ℚ, ∀ dd : Int, inv.due_date = some dd → today ≤ dd →
        lateFeeContribution today rate inv = 0)
    ∧ lateFeeContribution 0 36 invC6 = 1000 * 10 * (36 / 100 / 365) := by
  refine ⟨?_, ?_, ?_⟩
  · have e : (dashboard db today).late_fee_unpaid_total
        = dashboardLateFeeUnpaid db.invoices today
            (get_late_fee_rate_annual db 36 / 100 / 365) := rfl
    rw [e]
    exact dashboardLateFee_eq_sum db.invoices today _
  · intro inv rate dd h1 h2
    unfold lateFeeContribution
    rcases hob : inv.open_balance with _ | ob
    · simp [h1]
    · simp only [h1]
      rw [if_neg (fun hc => absurd hc.2 (not_lt.mpr h2))]
  · norm_num [lateFeeContribution, invC6]

/-- Witness for C6 at a concrete invoice due in the future: zero
contribution. -/
theorem C6_late_fee_accrual_witness :
    lateFeeContribution 0 36
      { invoice_no := "F1", customer_no := none, customer_name := none,
        invoice_date := none, due_date := some 5, vade := none, currency := none,
        total_amount := none, open_balance := some 1000 } = 0 :=
  (C6_late_fee_accrual dbEmpty 0).2.1 _ 36 5 rfl (by norm_num)

/-- The balance-weighted mean age of the overdue invoices (days floored at
zero), 0 when no overdue balance exists — the figure claim C7 specifies. -/
def weightedOverdueDaysSpec (invoices : List Invoice) (today : Int) : ℚ :=
  if (((invoices.filter (isOverdueInv today)).map (fun i => i.open_balance.getD 0)).sum : ℚ) = 0
  then 0
  else
    ((invoices.filter (isOverdueInv today)).map (fun i =>
        i.open_balance.getD 0 * ((max (today - i.due_date.getD 0) 0 : Int) : ℚ))).sum
      / ((invoices.filter (isOverdueInv today)).map (fun i => i.open_balance.getD 0)).sum

theorem floorDays_eq_max (d0 : Int) : (if d0 < 0 then 0 else d0) = max d0 0 := by
  rw [max_def]
  split_ifs <;> omega

theorem weightedPair_eq (today : Int) (l : List Invoice) :
    weightedPair today l
      = ((l.map (fun i =>
            i.open_balance.getD 0 * ((max (today - i.due_date.getD 0) 0 : Int) : ℚ))).sum,
         (l.map (fun i => i.open_balance.getD 0)).sum) := by
  suffices h : ∀ nd : ℚ × ℚ, l.foldl (fun nd inv =>
      let ob := inv.open_balance.getD 0
      let d0 := today - inv.due_date.getD 0
      let days := if d0 < 0 then 0 else d0
      (nd.1 + ob * (days : ℚ), nd.2 + ob)) nd
      = (nd.1 + (l.map (fun i =>
            i.open_balance.getD 0 * ((max (today - i.due_date.getD 0) 0 : Int) : ℚ))).sum,
         nd.2 + (l.map (fun i => i.open_balance.getD 0)).sum) by
    have h2 := h (0, 0)
    unfold weightedPair
    rw [h2]
    simp
  induction l with
  | nil => intro nd; simp
  | cons inv rest ih =>
    intro nd
    rw [List.foldl_cons, ih, List.map_cons, List.sum_cons, List.map_cons, List.sum_cons]
    simp only [floorDays_eq_max]
    simp [add_assoc]

/-- C7 (amended): the per-customer computation uses the balance-weighted
mean age of the customer's overdue invoices (days floored at zero, 0 when
no overdue balance); the system-wide dashboard instead always feeds
`weighted_days = 0` into its risk score. -/
theorem C7_weighted_days (db : DB) (customer_no : String) (cost_of_cash : ℚ) (today : Int) :
    (customer_metrics db customer_no cost_of_cash today).weighted_overdue_days
        = weightedOverdueDaysSpec
            (db.invoices.filter (fun i => i.customer_no == some customer_no)) today
    ∧ (dashboard db today).weighted_days = 0 := by
  refine ⟨?_, rfl⟩
  have e : (customer_metrics db customer_no cost_of_cash today).weighted_overdue_days
      = (if ((db.invoices.filter (fun i => i.customer_no == some customer_no)).filter
              (isOverdueInv today)).isEmpty
         then (0 : ℚ)
         else
           if (weightedPair today
                ((db.invoices.filter (fun i => i.customer_no == some customer_no)).filter
                  (isOverdueInv today))).2 = 0
           then 0
           else (weightedPair today
                  ((db.invoices.filter (fun i => i.customer_no == some customer_no)).filter
                    (isOverdueInv today))).1
             / (weightedPair today
                  ((db.invoices.filter (fun i => i.customer_no == some customer_no)).filter
                    (isOverdueInv today))).2) := rfl
  rw [e]
  unfold weightedOverdueDaysSpec
  by_cases hemp : (db.invoices.filter (fun i => i.customer_no == some customer_no)).filter
      (isOverdueInv today) = []
  · rw [if_pos (by rw [List.isEmpty_iff]; exact hemp), if_pos (by rw [hemp]; simp)]
  · rw [if_neg (by rw [List.isEmpty_iff]; exact hemp), weightedPair_eq]

/-- A store with one overdue invoice, for the C7 counterexample. -/
def dbC7 : DB :=
  { customers := [], invoices := [invC6], payments := [], regions := [], settings := [] }

/-- C7 counterexample: with one overdue invoice (balance 1000, 10 days
past due) the balance-weighted mean age is 10, but the dashboard's
weighted-days figure is the hardcoded 0, so the claim that every metrics
computation uses the weighted mean is false. -/
theorem C7_counterexample :
    (dashboard dbC7 0).weighted_days ≠ weightedOverdueDaysSpec dbC7.invoices 0 := by
  have h1 : (dashboard dbC7 0).weighted_days = 0 := rfl
  have h2 : weightedOverdueDaysSpec dbC7.invoices 0 = 10 := by
    norm_num [weightedOverdueDaysSpec, dbC7, invC6, isOverdueInv, List.filter]
  rw [h1, h2]
  norm_num

/-- C8 counterexample: customer "X" is unknown in the empty store, yet the
invoice-list and late-payments endpoints answer with an (empty) OK list
instead of a not-found error — so the claim that every summary/detail
request for an unknown customer fails is false. -/
theorem C8_counterexample :
    dbEmpty.customers.find? (fun c => c.customer_no == "X") = Option.none
    ∧ customer_invoices dbEmpty "X" 0 = Except.ok []
    ∧ customer_late_payments dbEmpty "X" = Except.ok [] := by
  exact ⟨rfl, rfl, rfl⟩

/-- C8 (amended): for an unknown customer identifier, the customer-summary
endpoint fails with a not-found error, but the per-customer invoice list
and late-payments endpoints return an OK (possibly empty) list instead of
failing. -/
theorem C8_unknown_customer (db : DB) (customer_no : String) (today : Int)
    (h : db.customers.find? (fun c => c.customer_no == customer_no) = Option.none) :
    customer_summary db customer_no today
        = Except.error (ApiError.notFound "Musteri bulunamadi")
    ∧ (∃ l, customer_invoices db customer_no today = Except.ok l)
    ∧ (∃ l, customer_late_payments db customer_no = Except.ok l) := by
  refine ⟨?_, ⟨_, rfl⟩, ⟨_, rfl⟩⟩
  unfold customer_summary
  rw [h]

/-- Witness for the amended C8 at the empty store and identifier "X". -/
theorem C8_unknown_customer_witness :
    customer_summary dbEmpty "X" 0 = Except.error (ApiError.notFound "Musteri bulunamadi")
    ∧ (∃ l, customer_invoices dbEmpty "X" 0 = Except.ok l)
    ∧ (∃ l, customer_late_payments dbEmpty "X" = Except.ok l) :=
  C8_unknown_customer dbEmpty "X" 0 rfl

/-- The cell parser as claim C9 words it: absent for missing cells, the
value for numeric cells; for text, strip, treat blank as absent, apply the
decimal-comma heuristic when exactly one comma is present (dots stripped,
comma becomes the decimal point), else parse as a plain float — never an
exception. -/
def to_float_spec : PyVal → Option ℚ
  | PyVal.none => Option.none
  | PyVal.num q => some q
  | PyVal.str s =>
    let text := pyStrip s
    if text = "" then Option.none
    else if text.toList.countP (fun c => c == ',') = 1 then
      pyFloat (pyCommaToDot (pyRemoveDots text))
    else pyFloat text

/-- C9: `_to_float` is total — every input yields an optional value, never
an exception — and matches the claim's description: blank or malformed
text gives `none`, one comma triggers the decimal-comma reading, any other
text is parsed as a plain float.  The closed conjuncts exercise blank,
non-numeric, decimal-comma, plain and multi-comma cells. -/
theorem C9_to_float_lenient :
    (∀ v : PyVal, to_float v = to_float_spec v)
    ∧ to_float (PyVal.str "") = Option.none
    ∧ to_float (PyVal.str "   ") = Option.none
    ∧ to_float (PyVal.str "abc") = Option.none
    ∧ to_float (PyVal.str "1.234,56") = some (123456 / 100)
    ∧ to_float (PyVal.str "12,5") = some (125 / 10)
    ∧ to_float (PyVal.str "3.5") = some (35 / 10)
    ∧ to_float (PyVal.str "1,2,3") = Option.none
    ∧ to_float PyVal.none = Option.none
    ∧ (∀ q : ℚ, to_float (PyVal.num q) = some q) := by
  refine ⟨fun v => by cases v <;> rfl, rfl, rfl, rfl, ?_, ?_, ?_, rfl, rfl, fun q => rfl⟩
  · rw [show to_float (PyVal.str "1.234,56")
        = some (((1234 : ℕ) : ℚ) + ((56 : ℕ) : ℚ) / (10 : ℚ) ^ (2 : ℕ)) from rfl]
    norm_num
  · rw [show to_float (PyVal.str "12,5")
        = some (((12 : ℕ) : ℚ) + ((5 : ℕ) : ℚ) / (10 : ℚ) ^ (1 : ℕ)) from rfl]
    norm_num
  · rw [show to_float (PyVal.str "3.5")
        = some (((3 : ℕ) : ℚ) + ((5 : ℕ) : ℚ) / (10 : ℚ) ^ (1 : ℕ)) from rfl]
    norm_num

theorem take_max_length {α : Type} (l : List α) (limit : Int) :
    (l.take (max 1 limit).toNat).length ≤ (max 1 limit).toNat := by
  simp [List.length_take]

theorem take_limit0_length {α : Type} (l : List α) (h : l ≠ []) :
    (l.take (max 1 (0 : Int)).toNat).length = 1 := by
  have h1 : (max 1 (0 : Int)).toNat = 1 := rfl
  rw [h1, List.length_take, min_eq_left (List.length_pos.mpr h)]

theorem mergeSort_ne_nil {α : Type} (l : List α) (le : α → α → Bool) (h : l ≠ []) :
    l.mergeSort le ≠ [] := by
  intro hc
  have h2 := congrArg List.length hc
  simp only [List.length_mergeSort, List.length_nil] at h2
  exact h (List.eq_nil_of_length_eq_zero h2)

theorem groupFold_ne_nil (rs : List RankedCustomer)
    (acc : List (Option String × RankedCustomer)) (h : acc ≠ []) :
    rs.foldl groupStep acc ≠ [] := by
  induction rs generalizing acc with
  | nil => exact h
  | cons r rest ih =>
    rw [List.foldl_cons]
    refine ih (groupStep acc r) ?_
    unfold groupStep
    by_cases hf : (acc.find? (fun kr => kr.1 == lossKey r)).isSome = true
    · rw [if_pos hf]
      intro hc
      exact h (List.map_eq_nil_iff.mp hc)
    · rw [if_neg hf]
      simp

theorem groupByName_ne_nil (rs : List RankedCustomer) (h : rs ≠ []) :
    groupByName rs ≠ [] := by
  match rs with
  | [] => exact absurd rfl h
  | r :: rest =>
    unfold groupByName
    intro hc
    rw [List.map_eq_nil_iff] at hc
    refine groupFold_ne_nil rest [(lossKey r, r)] (by simp) ?_
    exact hc

/-- C10: each listing endpoint truncates its qualifying list to
`max 1 limit` entries — so at most `max 1 limit` are returned for every
integer limit, including zero and negatives — and with `limit = 0` exactly
one entry is returned whenever at least one qualifying customer exists. -/
theorem C10_limit_clamp (db : DB) (limit : Int) (region_id : Option Int) (sort_by : String)
    (rid : Int) (today : Int) :
    ((top_risky_customers db limit region_id sort_by today).length ≤ (max 1 limit).toNat
      ∧ (limit = 0 → topRiskyRaw db region_id today ≠ []
          → (top_risky_customers db limit region_id sort_by today).length = 1))
    ∧ ((top_unpaid_customers db limit region_id today).length ≤ (max 1 limit).toNat
      ∧ (limit = 0 → topUnpaidRaw db region_id today ≠ []
          → (top_unpaid_customers db limit region_id today).length = 1))
    ∧ (∀ out, region_customers db rid limit today = Except.ok out →
        out.2.2.length ≤ (max 1 limit).toNat
        ∧ (limit = 0 → regionCustomersRaw db rid today ≠ [] → out.2.2.length = 1)) := by
  refine ⟨⟨take_max_length _ limit, ?_⟩, ⟨take_max_length _ limit, ?_⟩, ?_⟩
  · intro h0 hraw
    subst h0
    unfold top_risky_customers
    split_ifs <;>
      exact take_limit0_length _ (mergeSort_ne_nil _ _ (by
        first
          | exact groupByName_ne_nil _ hraw
          | exact hraw))
  · intro h0 hraw
    subst h0
    unfold top_unpaid_customers
    exact take_limit0_length _ (mergeSort_ne_nil _ _ hraw)
  · intro out hout
    unfold region_customers at hout
    rcases hreg : db.regions.find? (fun r => r.id == rid) with _ | region
    · rw [hreg] at hout
      cases hout
    · rw [hreg] at hout
      cases hout
      exact ⟨take_max_length _ limit, fun h0 hraw => by
        subst h0
        exact take_limit0_length _ (mergeSort_ne_nil _ _ hraw)⟩

/-- A customer in region 1, for the C10 witness. -/
def custW10 : Customer :=
  { customer_no := "C1", name := some "Acme", region_id := some 1 }

/-- A store with one qualifying customer, for the C10 witness. -/
def dbW10 : DB :=
  { customers := [custW10], invoices := [invoiceW], payments := [],
    regions := [{ id := 1, name := some "West" }], settings := [] }

/-- Witness for C10: with one qualifying customer a `limit = 0` request
still returns exactly one entry. -/
theorem C10_limit_clamp_witness :
    (top_risky_customers dbW10 0 Option.none "risk" 0).length = 1 := by
  have hne : topRiskyRaw dbW10 Option.none 0 ≠ [] := by
    norm_num [topRiskyRaw, dbW10, custW10, customer_metrics, customerPaymentsOf, invoiceW,
      List.filterMap_cons, get_cost_of_cash_annual, isOverdueInv, List.filter]
  exact (C10_limit_clamp dbW10 0 Option.none "risk" 1 0).1.2 rfl hne

end Tahsilat
